import Mathlib

/-!
Verification of the sjps-python HTTP server stack (libraries/sjpsocket and
libraries/sjpsmp) against its natural-language specification.

The Python code is shallowly embedded: Python `str`/`bytes` values become
`List Char` (the code only ever decodes bytes as UTF-8 text), Python dicts
become insertion-ordered association lists with last-write-wins update,
Python values flowing through the dispatcher become the inductive `PyVal`,
and code that can raise returns `Except PyExc`.  All definitions are
executable and structurally recursive (recursions that are not structural
in the source use an explicit fuel argument that is always sufficient).
-/

set_option maxRecDepth 10000

/-- Python strings (and byte strings, which the code always decodes as text)
are modelled as lists of characters. -/
abbrev Str := List Char

/-- Exceptions that the modelled Python code can raise. `notHttpRequest`
models the ad-hoc `Exception('Not an HTTP request!')` of
`parse_http_request`; the others model the builtin exception classes. -/
inductive PyExc where
  | valueError
  | typeError
  | keyError
  | osError
  | notImplementedError
  | notHttpRequest
  deriving DecidableEq, Repr

/-- The whitespace characters of Python's `str.split()` and of the regex
class matched by a backslash-s escape, restricted to ASCII (the requests the
claims quantify over are ASCII). -/
def isPyWs (c : Char) : Bool :=
  c = ' ' || c = '\t' || c = '\n' || c = '\r' || c = '\x0b' || c = '\x0c'

/-- Word characters of the regex class matched by a backslash-w escape
(ASCII fragment: letters, digits, underscore). -/
def isWordChar (c : Char) : Bool :=
  c.isAlphanum || c = '_'

/-- Split at the first occurrence of `sep` (Python `s.split(sep, 1)` when it
finds a separator): returns the part before and the part after the first
occurrence, or `none` when `sep` does not occur in `l`. -/
def splitOnce (sep : Str) (l : Str) : Option (Str × Str) :=
  if sep.isPrefixOf l then
    some ([], l.drop sep.length)
  else
    match l with
    | [] => none
    | c :: rest =>
      match splitOnce sep rest with
      | none => none
      | some (a, b) => some (c :: a, b)

/-- Python's `sep in s` substring test. -/
def containsSub (sep : Str) (l : Str) : Bool :=
  (splitOnce sep l).isSome

/-- Fuelled worker for `splitAll`. -/
def splitAllF (sep : Str) : Nat → Str → List Str
  | 0, l => [l]
  | fuel + 1, l =>
    match splitOnce sep l with
    | none => [l]
    | some (a, b) => a :: splitAllF sep fuel b

/-- Python `s.split(sep)` for a non-empty separator: splits at every
(non-overlapping, leftmost) occurrence of `sep` and keeps empty chunks. -/
def splitAll (sep : Str) (l : Str) : List Str :=
  splitAllF sep (l.length + 1) l

/-- Worker for `pySplitWs`, accumulating the current word reversed. -/
def pySplitWsGo (cur : Str) : Str → List Str
  | [] => if cur = [] then [] else [cur.reverse]
  | c :: rest =>
    if isPyWs c then
      if cur = [] then pySplitWsGo [] rest
      else cur.reverse :: pySplitWsGo [] rest
    else
      pySplitWsGo (c :: cur) rest

/-- Python `s.split()` (no argument): split on runs of whitespace and drop
empty chunks. -/
def pySplitWs (l : Str) : List Str :=
  pySplitWsGo [] l

/-- Value of an ASCII hex digit, `none` for other characters. -/
def hexVal (c : Char) : Option Nat :=
  if '0' ≤ c ∧ c ≤ '9' then some (c.toNat - '0'.toNat)
  else if 'a' ≤ c ∧ c ≤ 'f' then some (c.toNat - 'a'.toNat + 10)
  else if 'A' ≤ c ∧ c ≤ 'F' then some (c.toNat - 'A'.toNat + 10)
  else none

/-- `urllib.parse.unquote_plus` restricted to single-byte (ASCII) escapes:
every `+` becomes a space and every valid `%XX` escape becomes the character
with code `XX`; an invalid escape is kept verbatim, exactly as in Python.
(Python additionally reassembles multi-byte UTF-8 escape runs; the requests
quantified over here only use single-byte escapes.) -/
def unquotePlus : Str → Str
  | [] => []
  | '+' :: rest => ' ' :: unquotePlus rest
  | '%' :: a :: b :: rest =>
    match hexVal a, hexVal b with
    | some ha, some hb => Char.ofNat (16 * ha + hb) :: unquotePlus rest
    | _, _ => '%' :: unquotePlus (a :: b :: rest)
  | c :: rest => c :: unquotePlus rest

/-- Python `str.lower` (ASCII fragment, which is all the header names the
code lower-cases need). -/
def pyLower (l : Str) : Str :=
  l.map Char.toLower

/-- The CRLF line separator of the wire protocol. -/
def crlf : Str := ['\r', '\n']

/-- The blank-line header/body separator of the wire protocol. -/
def crlf2 : Str := ['\r', '\n', '\r', '\n']

/-- A member of Python's `http.HTTPStatus` enumeration: a numeric code with
its standard phrase. -/
structure HTTPStatus where
  value : Nat
  phrase : Str
  deriving DecidableEq, Repr

def HTTPStatus.OK : HTTPStatus := ⟨200, "OK".data⟩

def HTTPStatus.SEE_OTHER : HTTPStatus := ⟨303, "See Other".data⟩

def HTTPStatus.NOT_FOUND : HTTPStatus := ⟨404, "Not Found".data⟩

def HTTPStatus.INTERNAL_SERVER_ERROR : HTTPStatus := ⟨500, "Internal Server Error".data⟩

def HTTPStatus.NOT_IMPLEMENTED : HTTPStatus := ⟨501, "Not Implemented".data⟩

/-- The fragment of the `http.HTTPStatus` member list that this development
needs (`get_http_status_code_phrase` iterates over `list(HTTPStatus)`). -/
def httpStatusList : List HTTPStatus :=
  [⟨100, "Continue".data⟩, ⟨200, "OK".data⟩, ⟨201, "Created".data⟩,
   ⟨204, "No Content".data⟩, ⟨301, "Moved Permanently".data⟩,
   ⟨302, "Found".data⟩, ⟨303, "See Other".data⟩, ⟨304, "Not Modified".data⟩,
   ⟨400, "Bad Request".data⟩, ⟨401, "Unauthorized".data⟩,
   ⟨403, "Forbidden".data⟩, ⟨404, "Not Found".data⟩,
   ⟨405, "Method Not Allowed".data⟩, ⟨500, "Internal Server Error".data⟩,
   ⟨501, "Not Implemented".data⟩, ⟨502, "Bad Gateway".data⟩,
   ⟨503, "Service Unavailable".data⟩]

/-- Python values as they flow through the request parser and dispatcher. -/
inductive PyVal where
  | pyNone
  | pyBool (b : Bool)
  | pyInt (n : Int)
  | pyFloat (lit : Str)
  | pyStr (s : Str)
  | pyList (l : List PyVal)
  | pyDict (d : List (Str × PyVal))
  | pyTuple (l : List PyVal)
  | pyStatus (s : HTTPStatus)

/-- A Python dict with string keys: an insertion-ordered association list. -/
abbrev PyDict := List (Str × PyVal)

/-- Python `d[k] = v`: replace in place when the key exists, else append. -/
def alInsert {α β : Type} [DecidableEq α] (d : List (α × β)) (k : α) (v : β) :
    List (α × β) :=
  match d with
  | [] => [(k, v)]
  | (k', v') :: rest =>
    if k' = k then (k, v) :: rest else (k', v') :: alInsert rest k v

/-- Python `d.get(k)`: the value at the first (and by the insert discipline
only) occurrence of `k`. -/
def alLookup {α β : Type} [DecidableEq α] (d : List (α × β)) (k : α) :
    Option β :=
  match d with
  | [] => Option.none
  | (k', v') :: rest => if k' = k then some v' else alLookup rest k

/-- Fuelled decimal printer for `natStr`. -/
def natStrF : Nat → Nat → Str
  | 0, _ => []
  | fuel + 1, n =>
    if n < 10 then [Nat.digitChar n]
    else natStrF fuel (n / 10) ++ [Nat.digitChar (n % 10)]

/-- Decimal representation of a natural number, as Python `str` prints it. -/
def natStr (n : Nat) : Str := natStrF (n + 1) n

/-- Decimal representation of an integer, as Python `str` prints it. -/
def intStr : Int → Str
  | Int.ofNat n => natStr n
  | Int.negSucc m => '-' :: natStr (m + 1)

/-- Python `sep.join(parts)`. -/
def pyJoin (sep : Str) : List Str → Str
  | [] => []
  | [l] => l
  | l :: l2 :: rest => l ++ sep ++ pyJoin sep (l2 :: rest)

/-- Comma-join for container reprs. -/
def joinComma (parts : List Str) : Str := pyJoin ", ".data parts

mutual

/-- Python `repr`, scoped to the values this code produces: strings are
wrapped in single quotes without re-escaping their contents (none of the
concrete values the claims touch contain quotes or escapes), and an
`HTTPStatus` member is shown by its code. -/
def pyRepr : PyVal → Str
  | .pyNone => "None".data
  | .pyBool true => "True".data
  | .pyBool false => "False".data
  | .pyInt n => intStr n
  | .pyFloat lit => lit
  | .pyStr s => Char.ofNat 39 :: s ++ [Char.ofNat 39]
  | .pyList l => '[' :: joinComma (pyReprList l) ++ [']']
  | .pyDict d => Char.ofNat 123 :: joinComma (pyReprDict d) ++ [Char.ofNat 125]
  | .pyTuple l => '(' :: joinComma (pyReprList l) ++ [')']
  | .pyStatus s => "HTTPStatus(".data ++ natStr s.value ++ [')']

def pyReprList : List PyVal → List Str
  | [] => []
  | v :: vs => pyRepr v :: pyReprList vs

def pyReprDict : List (Str × PyVal) → List Str
  | [] => []
  | (k, v) :: rest =>
    (Char.ofNat 39 :: k ++ [Char.ofNat 39] ++ ": ".data ++ pyRepr v) ::
      pyReprDict rest

end

/-- Python `str()` of a value: identity on strings, `repr`-style otherwise. -/
def pyStrOf : PyVal → Str
  | .pyStr s => s
  | v => pyRepr v

/-- Python truthiness of the modelled values. An `HTTPStatus` is an integer
enum whose members are all non-zero, hence truthy. -/
def pyTruthy : PyVal → Bool
  | .pyNone => false
  | .pyBool b => b
  | .pyInt n => n != 0
  | .pyFloat lit => lit != "0.0".data
  | .pyStr s => !s.isEmpty
  | .pyList l => !l.isEmpty
  | .pyDict d => !d.isEmpty
  | .pyTuple l => !l.isEmpty
  | .pyStatus _ => true

/-- JSON insignificant whitespace. -/
def isJsonWs (c : Char) : Bool :=
  c = ' ' || c = '\t' || c = '\n' || c = '\r'

/-- Drop leading JSON whitespace. -/
def jsonSkipWs (l : Str) : Str := l.dropWhile isJsonWs

/-- Translate a JSON string escape character, `none` when it is not a
single-character escape. -/
def jsonEscChar (c : Char) : Option Char :=
  if c = Char.ofNat 34 then some (Char.ofNat 34)
  else if c = '\\' then some '\\'
  else if c = '/' then some '/'
  else if c = 'b' then some (Char.ofNat 8)
  else if c = 'f' then some (Char.ofNat 12)
  else if c = 'n' then some '\n'
  else if c = 'r' then some '\r'
  else if c = 't' then some '\t'
  else Option.none

/-- Scan the remainder of a JSON string literal (the opening quote already
consumed), accumulating decoded characters in reverse. Unescaped control
characters are rejected, as `json.loads` does in its default strict mode;
a `uXXXX` escape becomes the character with that code unit. -/
def jsonStringRest : Nat → Str → Str → Option (Str × Str)
  | 0, _, _ => Option.none
  | _, [], _ => Option.none
  | fuel + 1, c :: rest, acc =>
    if c = Char.ofNat 34 then some (acc.reverse, rest)
    else if c = '\\' then
      match rest with
      | [] => Option.none
      | e :: rest2 =>
        if e = 'u' then
          match rest2 with
          | h1 :: h2 :: h3 :: h4 :: rest3 =>
            match hexVal h1, hexVal h2, hexVal h3, hexVal h4 with
            | some a, some b, some c', some d =>
              jsonStringRest fuel rest3
                (Char.ofNat (((a * 16 + b) * 16 + c') * 16 + d) :: acc)
            | _, _, _, _ => Option.none
          | _ => Option.none
        else
          match jsonEscChar e with
          | some d => jsonStringRest fuel rest2 (d :: acc)
          | Option.none => Option.none
    else if c.toNat < 32 then Option.none
    else jsonStringRest fuel rest (c :: acc)

/-- Decimal value of a digit run. -/
def digitsVal (l : Str) : Nat :=
  l.foldl (fun acc c => acc * 10 + (c.toNat - 48)) 0

/-- Scan a JSON number starting at `l` (first character a digit or a minus
sign). Returns the parsed value — an `Int` when the literal has no fraction
or exponent, otherwise the raw literal as a float — and the rest.
Leading zeros are rejected as in `json.loads`. -/
def jsonNumber (l : Str) : Option (PyVal × Str) :=
  let (sign, l1) := match l with
    | '-' :: r => (true, r)
    | _ => (false, l)
  let intDigits := l1.takeWhile Char.isDigit
  let l2 := l1.drop intDigits.length
  if intDigits = [] then Option.none
  else if 1 < intDigits.length ∧ intDigits.headD '0' = '0' then Option.none
  else
    let (fracDigits, l3) := match l2 with
      | '.' :: r =>
        let ds := r.takeWhile Char.isDigit
        (('.' :: ds), r.drop ds.length)
      | _ => ([], l2)
    if fracDigits = ['.'] then Option.none
    else
      let (expDigits, l4) := match l3 with
        | 'e' :: r | 'E' :: r =>
          let (es, r1) := match r with
            | '+' :: r2 => (['+'], r2)
            | '-' :: r2 => (['-'], r2)
            | _ => (([] : Str), r)
          let ds := r1.takeWhile Char.isDigit
          if ds = [] then (([] : Str), ([] : Str))
          else (('e' :: es ++ ds), r1.drop ds.length)
        | _ => ([], l3)
      if fracDigits = [] ∧ expDigits = [] then
        let v : Int := Int.ofNat (digitsVal intDigits)
        some (.pyInt (if sign then -v else v), l2)
      else if expDigits = [] ∧ l3 ≠ [] ∧ (l3.headD ' ' = 'e' ∨ l3.headD ' ' = 'E') then
        Option.none
      else
        some (.pyFloat ((if sign then ['-'] else []) ++ intDigits ++ fracDigits ++ expDigits), l4)

mutual

/-- Parse one JSON value at the head of the input (leading whitespace
skipped here). Models `json.loads`, which also accepts the non-standard
constants `NaN`, `Infinity` and `-Infinity`. -/
def jsonValue : Nat → Str → Option (PyVal × Str)
  | 0, _ => Option.none
  | fuel + 1, s =>
    let s := jsonSkipWs s
    match s with
    | [] => Option.none
    | c :: rest =>
      if c = Char.ofNat 34 then
        match jsonStringRest (rest.length + 1) rest [] with
        | some (str, r) => some (.pyStr str, r)
        | Option.none => Option.none
      else if c = '[' then jsonArrayItems fuel (jsonSkipWs rest) true
      else if c = Char.ofNat 123 then
        match jsonObjectItems fuel (jsonSkipWs rest) true with
        | some (.pyDict kvs, r) =>
          some (.pyDict (kvs.foldl (fun d kv => alInsert d kv.1 kv.2) []), r)
        | other => other
      else if "null".data.isPrefixOf s then some (.pyNone, s.drop 4)
      else if "true".data.isPrefixOf s then some (.pyBool true, s.drop 4)
      else if "false".data.isPrefixOf s then some (.pyBool false, s.drop 5)
      else if "NaN".data.isPrefixOf s then some (.pyFloat "NaN".data, s.drop 3)
      else if "Infinity".data.isPrefixOf s then some (.pyFloat "Infinity".data, s.drop 8)
      else if "-Infinity".data.isPrefixOf s then some (.pyFloat "-Infinity".data, s.drop 9)
      else jsonNumber s

/-- Parse the items of a JSON array, the opening bracket already consumed
and leading whitespace skipped; `first` is true before the first item. -/
def jsonArrayItems : Nat → Str → Bool → Option (PyVal × Str)
  | 0, _, _ => Option.none
  | fuel + 1, s, first =>
    match s with
    | ']' :: rest => if first then some (.pyList [], rest) else Option.none
    | _ =>
      match jsonValue fuel s with
      | Option.none => Option.none
      | some (v, r) =>
        match jsonSkipWs r with
        | ']' :: r2 => some (.pyList [v], r2)
        | ',' :: r2 =>
          match jsonArrayItems fuel (jsonSkipWs r2) false with
          | some (.pyList vs, r3) => some (.pyList (v :: vs), r3)
          | _ => Option.none
        | _ => Option.none

/-- Parse the members of a JSON object, the opening brace already consumed
and leading whitespace skipped; `first` is true before the first member.
Duplicate keys follow Python semantics: the last wins. -/
def jsonObjectItems : Nat → Str → Bool → Option (PyVal × Str)
  | 0, _, _ => Option.none
  | fuel + 1, s, first =>
    match s with
    | c :: rest =>
      if c = Char.ofNat 125 then
        if first then some (.pyDict [], rest) else Option.none
      else if c = Char.ofNat 34 then
        match jsonStringRest (rest.length + 1) rest [] with
        | Option.none => Option.none
        | some (key, r) =>
          match jsonSkipWs r with
          | ':' :: r2 =>
            match jsonValue fuel r2 with
            | Option.none => Option.none
            | some (v, r3) =>
              match jsonSkipWs r3 with
              | c2 :: r4 =>
                if c2 = Char.ofNat 125 then some (.pyDict [(key, v)], r4)
                else if c2 = ',' then
                  match jsonObjectItems fuel (jsonSkipWs r4) false with
                  | some (.pyDict kvs, r5) => some (.pyDict ((key, v) :: kvs), r5)
                  | _ => Option.none
                else Option.none
              | [] => Option.none
          | _ => Option.none
      else Option.none
    | [] => Option.none

end

/-- `json.loads`: parse a complete JSON document, requiring only trailing
whitespace after the value. `none` models `JSONDecodeError`. -/
def jsonParse (s : Str) : Option PyVal :=
  match jsonValue (2 * s.length + 8) s with
  | some (v, rest) => if jsonSkipWs rest = [] then some v else Option.none
  | Option.none => Option.none

/-- Loop of `parse_url_parameters`: each `&`-chunk must contain `=`
(a chunk without one raises `ValueError` from tuple unpacking). -/
def urlParamsLoop : List Str → List (Str × Str) → Except PyExc (List (Str × Str))
  | [], r => .ok r
  | pair :: rest, r =>
    match splitOnce ['='] pair with
    | Option.none => .error .valueError
    | some (k, v) => urlParamsLoop rest (alInsert r k v)

/-- `parse_url_parameters` (core.py:326): percent-decode the whole parameter
string first, then split on `&` and once on `=` per pair. -/
def parse_url_parameters (parameterString : Str) : Except PyExc (List (Str × Str)) :=
  urlParamsLoop (splitAll ['&'] (unquotePlus parameterString)) []

/-- Loop of `parse_http_cookies`: empty chunks are skipped, other chunks
must contain `=`. Values are not percent-decoded. -/
def cookiesLoop : List Str → List (Str × Str) → Except PyExc (List (Str × Str))
  | [], r => .ok r
  | pair :: rest, r =>
    if pair = [] then cookiesLoop rest r
    else
      match splitOnce ['='] pair with
      | Option.none => .error .valueError
      | some (k, v) => cookiesLoop rest (alInsert r k v)

/-- `parse_http_cookies` (core.py:265). -/
def parse_http_cookies (cookieString : Str) : Except PyExc (List (Str × Str)) :=
  cookiesLoop (splitAll "; ".data cookieString) []

/-- Loop of `parse_form_urlencoded`: empty chunks are skipped; key and value
are percent-decoded separately after splitting. -/
def urlencLoop : List Str → List (Str × Str) → Except PyExc (List (Str × Str))
  | [], r => .ok r
  | pair :: rest, r =>
    if pair = [] then urlencLoop rest r
    else
      match splitOnce ['='] pair with
      | Option.none => .error .valueError
      | some (k, v) => urlencLoop rest (alInsert r (unquotePlus k) (unquotePlus v))

/-- `parse_form_urlencoded` (core.py:226). -/
def parse_form_urlencoded (bodySection : Str) : Except PyExc (List (Str × Str)) :=
  urlencLoop (splitAll ['&'] bodySection) []

/-- Fuelled worker for `replaceAll`. -/
def replaceAllF (pat rep : Str) : Nat → Str → Str
  | 0, l => l
  | fuel + 1, l =>
    match splitOnce pat l with
    | Option.none => l
    | some (a, b) => a ++ rep ++ replaceAllF pat rep fuel b

/-- Python `s.replace(pat, rep)` for a non-empty pattern. -/
def replaceAll (pat rep l : Str) : Str := replaceAllF pat rep (l.length + 1) l

/-- Parse the `key=value` meta pairs of one multipart part. -/
def metaPairsLoop : List Str → PyDict → Except PyExc PyDict
  | [], item => .ok item
  | pair :: rest, item =>
    match splitOnce ['='] pair with
    | Option.none => .error .valueError
    | some (k, v) => metaPairsLoop rest (alInsert item k (.pyStr v))

/-- First loop of `parse_form_multipart_form_data`: split each part into its
meta block and data, normalize the meta block's punctuation, and collect the
`key=value` pairs together with the part's data (with its trailing CRLF
sliced off). -/
def multipartItemsLoop : List Str → List PyDict → Except PyExc (List PyDict)
  | [], acc => .ok acc.reverse
  | part :: rest, acc =>
    let p := part.dropWhile isPyWs
    match splitOnce crlf2 p with
    | Option.none => .error .valueError
    | some (meta, data) =>
      let meta := (replaceAll ": ".data ['='] (replaceAll crlf "; ".data meta)).filter
        (fun c => c ≠ Char.ofNat 34)
      let item : PyDict := [("data".data, .pyStr (data.take (data.length - 2)))]
      match metaPairsLoop (splitAll "; ".data meta) item with
      | .error e => .error e
      | .ok item => multipartItemsLoop rest (item :: acc)

/-- Second loop of `parse_form_multipart_form_data`: parts with a name,
filename and content type are appended to a list under their field name
(appending to an existing non-list value raises, as in Python); other named
parts become scalar values. -/
def multipartCollect : List PyDict → PyDict → Except PyExc PyDict
  | [], r => .ok r
  | item :: rest, r =>
    match alLookup item "name".data with
    | some (PyVal.pyStr nm) =>
      match alLookup item "filename".data, alLookup item "Content-Type".data with
      | some (PyVal.pyStr fn), some (PyVal.pyStr ct) =>
        let fileEntry := PyVal.pyDict
          [("type".data, .pyStr ct), ("name".data, .pyStr fn),
           ("data".data, (alLookup item "data".data).getD (.pyStr []))]
        match alLookup r nm with
        | Option.none => multipartCollect rest (alInsert r nm (.pyList [fileEntry]))
        | some (PyVal.pyList l) => multipartCollect rest (alInsert r nm (.pyList (l ++ [fileEntry])))
        | some _ => .error .typeError
      | _, _ =>
        match alLookup item "data".data with
        | some d => multipartCollect rest (alInsert r nm d)
        | Option.none => multipartCollect rest r
    | some _ => .error .typeError
    | Option.none => multipartCollect rest r

/-- `parse_form_multipart_form_data` (core.py:188): split the body on the
boundary, keep the interior parts, and collect fields and file lists. -/
def parse_form_multipart_form_data (bodySection contentType : Str) :
    Except PyExc PyDict :=
  match splitOnce "; ".data contentType with
  | Option.none => .error .valueError
  | some (_, boundaryString) =>
    match splitOnce ['='] boundaryString with
    | Option.none => .error .valueError
    | some (_, boundary) =>
      let parts := ((splitAll ("--".data ++ boundary) bodySection).drop 1).dropLast
      match multipartItemsLoop parts [] with
      | .error e => .error e
      | .ok items => multipartCollect items []

/-- `parse_http_body` (core.py:236): an empty body is an empty mapping;
form-urlencoded and multipart bodies use their dedicated parsers; any other
content type is tried as JSON, and a `JSONDecodeError` is swallowed (only
logged), leaving the empty mapping. -/
def parse_http_body (bodySection : Str) (contentType : Str) : Except PyExc PyVal :=
  if bodySection.length = 0 then .ok (.pyDict [])
  else if contentType = "application/x-www-form-urlencoded".data then
    match parse_form_urlencoded bodySection with
    | .ok kvs => .ok (.pyDict (kvs.map (fun kv => (kv.1, PyVal.pyStr kv.2))))
    | .error e => .error e
  else if "multipart/form-data".data.isPrefixOf contentType then
    match parse_form_multipart_form_data bodySection contentType with
    | .ok d => .ok (.pyDict d)
    | .error e => .error e
  else
    match jsonParse bodySection with
    | some v => .ok v
    | Option.none => .ok (.pyDict [])

/-- Loop over the header lines after the start-line (`parse_http_headers`):
each line is split once on `": "` (no separator raises `ValueError` from
tuple unpacking) and stored under its lower-cased key, last write wins. -/
def headerLinesLoop : List Str → PyDict → Except PyExc PyDict
  | [], r => .ok r
  | line :: rest, r =>
    match splitOnce ": ".data line with
    | Option.none => .error .valueError
    | some (k, v) => headerLinesLoop rest (alInsert r (pyLower k) (.pyStr v))

/-- `parse_http_headers` (core.py:283): split the header section on CRLF;
the first line must split on whitespace into exactly three tokens; a `?` in
the path token separates the query string; the slots `method`,
`http_version`, `path` (percent-decoded) and `parameters` are written first
and the remaining header lines are then stored over them in the same
mapping; a `cookie` header is post-processed into a mapping. -/
def parse_http_headers (headerSection : Str) : Except PyExc PyDict :=
  let headers := splitAll crlf headerSection
  match pySplitWs (headers.headD []) with
  | [method, pathWithParams, httpVersion] =>
    let pathParams : Except PyExc (Str × List (Str × Str)) :=
      if containsSub ['?'] pathWithParams then
        match splitOnce ['?'] pathWithParams with
        | some (p, q) =>
          match parse_url_parameters q with
          | .ok ps => .ok (p, ps)
          | .error e => .error e
        | Option.none => .error .valueError
      else .ok (pathWithParams, [])
    match pathParams with
    | .error e => .error e
    | .ok (path, parameters) =>
      let r : PyDict :=
        [("method".data, .pyStr method),
         ("http_version".data, .pyStr httpVersion),
         ("path".data, .pyStr (unquotePlus path)),
         ("parameters".data, .pyDict (parameters.map (fun kv => (kv.1, PyVal.pyStr kv.2))))]
      match headerLinesLoop headers.tail r with
      | .error e => .error e
      | .ok r =>
        match alLookup r "cookie".data with
        | some (PyVal.pyStr c) =>
          match parse_http_cookies c with
          | .ok cs =>
            .ok (alInsert r "cookie".data
              (.pyDict (cs.map (fun kv => (kv.1, PyVal.pyStr kv.2)))))
          | .error e => .error e
        | some _ => .error .typeError
        | Option.none => .ok r
  | _ => .error .valueError

/-- Check a `HTTP/<digit>.<digit>` token at the head of the input (prefix
match, trailing characters allowed). -/
def matchHttpVersionAt : Str → Bool
  | 'H' :: 'T' :: 'T' :: 'P' :: '/' :: d1 :: '.' :: d2 :: _ => d1.isDigit && d2.isDigit
  | _ => false

/-- Check `<path> <HTTP version>` at the head of the input: a non-empty run
of non-whitespace characters, one whitespace, then the version token. The
regex class for the path, `[\/\w\S]`, is exactly the non-whitespace class
`\S`, matched greedily; greedy matching is exact here because the run
cannot cross the following whitespace. -/
def matchPathVersionAt (l : Str) : Bool :=
  let p := l.takeWhile (fun c => !isPyWs c)
  match l.drop p.length with
  | c :: rest => !p.isEmpty && isPyWs c && matchHttpVersionAt rest
  | [] => false

/-- The method alternatives of the start-line regex. -/
def httpMethods : List Str :=
  ["GET".data, "POST".data, "PUT".data, "DELETE".data, "HEAD".data]

/-- `re.match` of the start-line pattern
`(GET|POST|PUT|DELETE|HEAD)\s([\/\w\S]+)\s(HTTP\/\d\.\d)`: anchored at the
start only, with a single whitespace character between the tokens. -/
def matchRequestStartLine (row : Str) : Bool :=
  httpMethods.any (fun m =>
    m.isPrefixOf row &&
    match row.drop m.length with
    | c :: rest => isPyWs c && matchPathVersionAt rest
    | [] => false)

/-- `is_http_request` (core.py:181): test the start-line regex against the
text before the first CRLF (the whole input when there is none). -/
def is_http_request (data : Str) : Bool :=
  let headerRow :=
    match splitOnce crlf data with
    | some (a, _) => a
    | Option.none => data
  matchRequestStartLine headerRow

/-- `parse_http_request` (core.py:313): reject inputs that fail
`is_http_request` (the ad-hoc `Exception`); split once on the blank line —
when it is absent the two-name tuple unpacking raises `ValueError`; parse
the header section, then the body section under the `content-type` header
(defaulting to `text/plain`), and return the headers mapping with the body
stored under `body`. -/
def parse_http_request (data : Str) : Except PyExc PyDict :=
  if !is_http_request data then .error .notHttpRequest
  else
    match splitOnce crlf2 data with
    | Option.none => .error .valueError
    | some (headerSection, bodySection) =>
      match parse_http_headers headerSection with
      | .error e => .error e
      | .ok headers =>
        let ct :=
          match alLookup headers "content-type".data with
          | some (PyVal.pyStr s) => s
          | _ => "text/plain".data
        match parse_http_body bodySection ct with
        | .error e => .error e
        | .ok body => .ok (alInsert headers "body".data body)

/-- `get_http_status_code_phrase` (core.py:102): raises a plain `Exception`
(modelled as `valueError`-like custom error) when the code is not an
`HTTPStatus` member, otherwise returns the first matching phrase. -/
def get_http_status_code_phrase (code : Nat) : Except PyExc Str :=
  if httpStatusList.any (fun s => s.value = code) then
    match httpStatusList.find? (fun s => s.value = code) with
    | some s => .ok s.phrase
    | Option.none => .error .notHttpRequest
  else .error .valueError

/-- The `status` argument of `build_http_response`: either an `HTTPStatus`
member or a plain integer code. -/
inductive StatusArg where
  | status (s : HTTPStatus)
  | code (n : Nat)

/-- `build_http_response` (core.py:13): status line, the headers joined by
CRLF, then — exactly as the code is written — one more CRLF when the string
built so far already ends in CRLF (which happens precisely when the header
block is empty or its last value ends in CRLF) and a double CRLF otherwise,
then the body. -/
def build_http_response (st : StatusArg) (headers : List (Str × Str)) (body : Str) :
    Except PyExc Str :=
  let codePhrase : Except PyExc (Nat × Str) :=
    match st with
    | .status s => .ok (s.value, s.phrase)
    | .code n =>
      match get_http_status_code_phrase n with
      | .ok p => .ok (n, p)
      | .error e => .error e
  match codePhrase with
  | .error e => .error e
  | .ok (code, phrase) =>
    let r := "HTTP/1.1 ".data ++ natStr code ++ [' '] ++ phrase ++ crlf
    let r := r ++ pyJoin crlf
      (headers.map (fun kv => kv.1 ++ ": ".data ++ kv.2))
    .ok (r ++ (if crlf.isSuffixOf r then crlf else crlf2) ++ body)

/-- One element of the regex produced by `build_regex_url`, under the regex
interpretation of the raw characters the code splices into the pattern:
`.` is the any-character metacharacter, every other spliced character in
the fragment used by the claims stands for itself, and a path variable
becomes a named group matching one-or-more word characters. Other regex
metacharacters (`*`, `(`, `[`, ...) are outside the modelled fragment and
the theorems below exclude them by hypothesis. -/
inductive RElem where
  | anyChar
  | lit (c : Char)
  | group (name : Str)

/-- Regex meaning of one raw character spliced into the pattern. -/
def regexCharElem (c : Char) : RElem :=
  if c = '.' then .anyChar else .lit c

/-- `build_regex_url` (core.py:36), pattern construction: a one-character
url is spliced directly between the anchors; otherwise the url is split on
`/`, empty segments are skipped, a segment starting with the marker (by
default `:`) contributes `/(?P<name>\w+)` with `name` the segment minus its
first character, and any other segment contributes `/` followed by its raw
characters. The `^`/`$` anchors are represented by `matchElems` requiring
the match to start at the beginning and consume the whole input. -/
def build_regex_url (url : Str) (marker : Str := ":".data) : List RElem :=
  if url.length = 1 then url.map regexCharElem
  else
    (splitAll ['/'] url).foldl
      (fun acc part =>
        if part = [] then acc
        else if marker.isPrefixOf part then
          acc ++ [RElem.lit '/', RElem.group (part.drop 1)]
        else acc ++ (RElem.lit '/' :: part.map regexCharElem))
      []

/-- Match a compiled pattern against a whole path, returning the group
dictionary. The end anchor `$` is matched as Python's `re` matches it
outside MULTILINE mode: at the end of the input, or just before a single
trailing newline; the any-character metacharacter `.` matches every
character except a newline, again as in Python. A group's `\w+` is matched
greedily with no backtracking; this agrees with the backtracking regex
semantics on every pattern `build_regex_url` produces, because there a
group is always followed by a literal `/` or by the end anchor, neither of
which can match the word character a shorter group match would have to
hand over. -/
def matchElems : List RElem → Str → Option (List (Str × Str))
  | [], xs => if xs = [] ∨ xs = ['\n'] then some [] else Option.none
  | RElem.lit c :: es, xs =>
    match xs with
    | x :: r => if x = c then matchElems es r else Option.none
    | [] => Option.none
  | RElem.anyChar :: es, xs =>
    match xs with
    | x :: r => if x = '\n' then Option.none else matchElems es r
    | [] => Option.none
  | RElem.group n :: es, xs =>
    let w := xs.takeWhile isWordChar
    if w = [] then Option.none
    else
      match matchElems es (xs.drop w.length) with
      | some caps => some ((n, w) :: caps)
      | Option.none => Option.none

/-- `build_regex_url(url).match(path)` with its `groupdict()`: the full
anchored match of the compiled pattern. -/
def regex_url_match (url path : Str) : Option (List (Str × Str)) :=
  matchElems (build_regex_url url) path

/-- A handler parameter annotation as `inspect.signature` reports it:
absent (`_empty`) or one of the builtin constructor types routes declare. -/
inductive Annot where
  | empty
  | intA
  | strA

/-- Helper for `pyIntOfStr`: a digit run possibly with single underscores
strictly between digits, as Python's integer literal grammar allows. -/
def isDigitRun : Str → Bool
  | [] => false
  | [c] => c.isDigit
  | c :: '_' :: rest => c.isDigit && isDigitRun rest
  | c :: rest => c.isDigit && isDigitRun rest

/-- Python `int(s)` on a string: surrounding whitespace stripped, an
optional sign, then a non-empty digit run (single underscores between
digits allowed); anything else raises `ValueError`. -/
def pyIntOfStr (s : Str) : Except PyExc Int :=
  let t := ((s.dropWhile isPyWs).reverse.dropWhile isPyWs).reverse
  let signed : Bool × Str :=
    match t with
    | '-' :: ds => (true, ds)
    | '+' :: ds => (false, ds)
    | ds => (false, ds)
  if isDigitRun signed.2 then
    let v : Int := Int.ofNat (digitsVal (signed.2.filter Char.isDigit))
    .ok (if signed.1 then -v else v)
  else .error .valueError

/-- Apply a declared annotation as a constructor call, the way the
dispatcher does with `param.annotation(value)`: `int` rejects non-numeric
strings with `ValueError` and non-numeric objects with `TypeError`; `str`
stringifies anything. -/
def applyAnnot : Annot → PyVal → Except PyExc PyVal
  | .empty, v => .ok v
  | .intA, .pyStr s =>
    match pyIntOfStr s with
    | .ok n => .ok (.pyInt n)
    | .error e => .error e
  | .intA, .pyInt n => .ok (.pyInt n)
  | .intA, .pyBool b => .ok (.pyInt (if b then 1 else 0))
  | .intA, _ => .error .typeError
  | .strA, v => .ok (.pyStr (pyStrOf v))

/-- The parameter-binding loop of the dispatcher (servers.py:258-263): for
each signature parameter present in the merged client parameters, take the
value, apply the declared annotation when there is one — NOTE: outside any
`try`, so a coercion failure propagates — and store it as a keyword
argument. -/
def bindParamsLoop : List (Str × Annot) → PyDict → PyDict → Except PyExc PyDict
  | [], _, kwargs => .ok kwargs
  | (name, ann) :: rest, clientParams, kwargs =>
    match alLookup clientParams name with
    | Option.none => bindParamsLoop rest clientParams kwargs
    | some v =>
      match applyAnnot ann v with
      | .error e => .error e
      | .ok v' => bindParamsLoop rest clientParams (alInsert kwargs name v')

/-- Bind the merged client parameters against a handler signature. -/
def bindParams (sig : List (Str × Annot)) (clientParams : PyDict) :
    Except PyExc PyDict :=
  bindParamsLoop sig clientParams []

/-- The dispatcher's handler invocation (servers.py:258-276): bind the
parameters (outside the `try`), then call the handler inside a `try` that
converts a `TypeError` into a 500 triple and a `NotImplementedError` into
either a re-raise (no view template body) or a 200 triple carrying the
template body. The handler itself is abstracted as a function from the
bound keyword arguments to a result or a raised exception. -/
def invokeHandler (templateBody : Str) (sig : List (Str × Annot))
    (clientParams : PyDict) (call : PyDict → Except PyExc PyVal) :
    Except PyExc PyVal :=
  match bindParams sig clientParams with
  | .error e => .error e
  | .ok kwargs =>
    match call kwargs with
    | .ok v => .ok v
    | .error .typeError =>
      .ok (.pyTuple [.pyStatus HTTPStatus.INTERNAL_SERVER_ERROR, .pyDict [], .pyStr []])
    | .error .notImplementedError =>
      if templateBody = [] then .error .notImplementedError
      else .ok (.pyTuple [.pyStatus HTTPStatus.OK, .pyDict [], .pyStr templateBody])
    | .error e => .error e

/-- Python `type(x) is tuple and len(x) == 3`. -/
def isTuple3 : PyVal → Bool
  | .pyTuple l => l.length == 3
  | _ => false

/-- The dispatcher's handler-response normalization when no view template
body is set (servers.py:296-303): a 3-tuple is used as status, headers
merged over the present ones, and body; any other result gets status 200
when truthy and 501 NOT_IMPLEMENTED when falsy, with `str(result) or ''`
as the body (`or ''` never changes a string, it is kept for fidelity in
the comment only). Merging a non-dict second component raises `TypeError`
as `{**headers, **x}` does. -/
def web_normalize_response (headers0 : PyDict) (v : PyVal) :
    Except PyExc (PyVal × PyDict × PyVal) :=
  match v with
  | .pyTuple [s, h, b] =>
    match h with
    | .pyDict d => .ok (s, d.foldl (fun acc kv => alInsert acc kv.1 kv.2) headers0, b)
    | _ => .error .typeError
  | v =>
    .ok (.pyStatus (if pyTruthy v then HTTPStatus.OK else HTTPStatus.NOT_IMPLEMENTED),
      headers0, .pyStr (pyStrOf v))

/-- State of a `multiprocessing.Process` object: whether the underlying OS
process is still running, and whether the Process object has been
`close()`d. Modelled from the documented CPython behavior: `terminate`,
`kill` and `is_alive` raise `ValueError` on a closed Process; `close`
raises `ValueError` while the process is still running and is a no-op on
an already-closed Process. Signal delivery is modelled as immediate (the
most favorable case for the caller). -/
structure ProcState where
  alive : Bool
  closed : Bool
  deriving DecidableEq, Repr

/-- `Process.terminate()` / `Process.kill()`. -/
def procTerminate (p : ProcState) : Except PyExc ProcState :=
  if p.closed then .error .valueError
  else .ok { alive := false, closed := false }

/-- `Process.close()`. -/
def procClose (p : ProcState) : Except PyExc ProcState :=
  if p.closed then .ok p
  else if p.alive then .error .valueError
  else .ok { p with closed := true }

/-- A `PipedProcess` (sjpsmp.py): one Process and one Connection, the
latter modelled by whether it has been closed (`Connection.close` is
idempotent and never raises). -/
structure PipedProcess where
  proc : ProcState
  pipeClosed : Bool
  deriving DecidableEq, Repr

/-- `Connection.close()` on the channel. -/
def PipedProcess.pipeClose (s : PipedProcess) : Except PyExc PipedProcess :=
  .ok { s with pipeClosed := true }

/-- `PipedProcess.close` (sjpsmp.py:22): close the pipe, then the process. -/
def PipedProcess.close (s : PipedProcess) : Except PyExc PipedProcess :=
  match s.pipeClose with
  | .error e => .error e
  | .ok s1 =>
    match procClose s1.proc with
    | .error e => .error e
    | .ok p => .ok { s1 with proc := p }

/-- `PipedProcess.kill` (sjpsmp.py:29). -/
def PipedProcess.kill (s : PipedProcess) : Except PyExc PipedProcess :=
  match procTerminate s.proc with
  | .error e => .error e
  | .ok p => .ok { s with proc := p }

/-- `PipedProcess.quit` (sjpsmp.py:32): `terminate`, then `kill`, then
`close` (pipe close followed by process close). -/
def PipedProcess.quit (s : PipedProcess) : Except PyExc PipedProcess :=
  match procTerminate s.proc with
  | .error e => .error e
  | .ok p1 =>
    match procTerminate p1 with
    | .error e => .error e
    | .ok p2 => PipedProcess.close { s with proc := p2 }

/-- A freshly spawned, running worker channel. -/
def PipedProcess.running : PipedProcess := ⟨⟨true, false⟩, false⟩

/-- A worker channel whose process has already exited. -/
def PipedProcess.finished : PipedProcess := ⟨⟨false, false⟩, false⟩

/-- The wire encoding of a (method, path, headers, body) tuple as claim C3
describes it: start-line and `key: value` header lines joined by CRLF,
then the blank-line separator, then the body. -/
def encode_request (method path : Str) (headers : List (Str × Str)) (body : Str) : Str :=
  pyJoin crlf
    ((method ++ ((' ' :: path) ++ (' ' :: "HTTP/1.1".data))) ::
      headers.map (fun kv => kv.1 ++ ": ".data ++ kv.2)) ++ crlf2 ++ body

/-- The response byte layout exactly as the specification's words describe
it (claim C8): `HTTP/1.1 <code> <phrase>\r\n` + headers joined by CRLF +
`\r\n\r\n` + body. Stated for comparison with `build_http_response`. -/
def spec_response_bytes (s : HTTPStatus) (headers : List (Str × Str)) (body : Str) : Str :=
  "HTTP/1.1 ".data ++ natStr s.value ++ [' '] ++ s.phrase ++ crlf ++
    pyJoin crlf (headers.map (fun kv => kv.1 ++ ": ".data ++ kv.2)) ++
    crlf2 ++ body

/-- The mapping slots of a parsed request that do not come from a header
line: the four start-line-derived fields plus the body slot. -/
def reservedRequestKeys : List Str :=
  ["method".data, "http_version".data, "path".data, "parameters".data, "body".data]

/-- A character that none of the wire-format separators can collide with:
not a `%`/`+` escape trigger, not CR or LF, not `:`, `?`, `&`, `=` and not
whitespace. The round-trip hypotheses below are stated with it. -/
def isPlainChar (c : Char) : Bool :=
  !isPyWs c && c ≠ '%' && c ≠ '+' && c ≠ ':' && c ≠ '?' && c ≠ '&' && c ≠ '='

/-- A literal-segment character inside the modelled regex fragment: not a
path separator and not one of the regex metacharacters that
`build_regex_url` would splice into the pattern unescaped. -/
def isSafeLitChar (c : Char) : Bool :=
  !(c ∈ ['.', '/', '^', '$', '*', '+', '?', '(', ')', '[', ']', '\\', '|',
    Char.ofNat 123, Char.ofNat 125])

/-- The normalized path spelled by a list of segments: a leading slash
before each segment (equivalently, the empty string and the segments joined
by `/`). -/
def slashPath (segs : List Str) : Str := pyJoin ['/'] ([] :: segs)

/-- The JSON payload of the specification's example for body parsing: the
seven characters open-brace, quote, a, quote, colon, one, close-brace. -/
def jsonExampleBody : Str :=
  [Char.ofNat 123, Char.ofNat 34, 'a', Char.ofNat 34, ':', '1', Char.ofNat 125]

theorem isPrefixOf_append_self (sep b : Str) : sep.isPrefixOf (sep ++ b) = true := by
  induction sep with
  | nil => simp [List.isPrefixOf]
  | cons c t ih => simp [List.isPrefixOf, ih]

theorem isPrefixOf_cons_ne (c x : Char) (t l : Str) (h : x ≠ c) :
    (c :: t).isPrefixOf (x :: l) = false := by
  simp [List.isPrefixOf]
  intro hc
  exact absurd hc.symm h

theorem splitOnce_nil (c : Char) (t : Str) : splitOnce (c :: t) [] = Option.none := by
  simp [splitOnce, List.isPrefixOf]

theorem splitOnce_here (c : Char) (t b : Str) :
    splitOnce (c :: t) ((c :: t) ++ b) = some ([], b) := by
  simp [splitOnce, isPrefixOf_append_self]

theorem splitOnce_skip (c : Char) (t a r : Str) (ha : c ∉ a) :
    splitOnce (c :: t) (a ++ r) =
      (splitOnce (c :: t) r).map (fun p => (a ++ p.1, p.2)) := by
  induction a with
  | nil =>
    simp only [List.nil_append]
    cases h : splitOnce (c :: t) r with
    | none => simp [h]
    | some p => simp [h]
  | cons x a' ih =>
    have hx : x ≠ c := fun hcon => ha (hcon ▸ List.mem_cons_self x a')
    have ha' : c ∉ a' := fun hcon => ha (List.mem_cons_of_mem x hcon)
    simp only [List.cons_append]
    rw [splitOnce]
    rw [isPrefixOf_cons_ne c x t (a' ++ r) hx]
    simp only [Bool.false_eq_true, if_false]
    rw [ih ha']
    cases h : splitOnce (c :: t) r with
    | none => simp
    | some p => simp

theorem splitOnce_boundary (c : Char) (t a b : Str) (ha : c ∉ a) :
    splitOnce (c :: t) (a ++ (c :: t) ++ b) = some (a, b) := by
  rw [List.append_assoc, splitOnce_skip c t a ((c :: t) ++ b) ha,
    splitOnce_here c t b]
  simp

theorem splitOnce_not_contains (c : Char) (t a : Str) (ha : c ∉ a) :
    splitOnce (c :: t) a = Option.none := by
  have := splitOnce_skip c t a [] ha
  rw [List.append_nil] at this
  rw [this, splitOnce_nil]
  rfl

theorem splitOnce_some_length (c : Char) (t l a b : Str)
    (h : splitOnce (c :: t) l = some (a, b)) : b.length < l.length := by
  induction l generalizing a b with
  | nil => rw [splitOnce_nil] at h; cases h
  | cons x r ih =>
    rw [splitOnce] at h
    by_cases hp : (c :: t).isPrefixOf (x :: r) = true
    · rw [if_pos hp] at h
      simp only [Option.some.injEq, Prod.mk.injEq] at h
      obtain ⟨_, hb⟩ := h
      have hlen : (c :: t).length ≤ (x :: r).length :=
        List.IsPrefix.length_le (List.isPrefixOf_iff_prefix.mp hp)
      rw [← hb]
      simp only [List.length_drop]
      simp only [List.length_cons] at hlen ⊢
      omega
    · rw [if_neg hp] at h
      cases hs : splitOnce (c :: t) r with
      | none => rw [hs] at h; cases h
      | some p =>
        rw [hs] at h
        simp only [Option.some.injEq, Prod.mk.injEq] at h
        obtain ⟨_, hb⟩ := h
        have := ih p.1 p.2 (by rw [hs])
        rw [← hb]
        simp only [List.length_cons]
        omega

theorem splitAllF_fuel (c : Char) (t : Str) :
    ∀ n m l, l.length < n → l.length < m →
      splitAllF (c :: t) n l = splitAllF (c :: t) m l := by
  intro n
  induction n with
  | zero => intro m l h; omega
  | succ n ih =>
    intro m l hn hm
    cases m with
    | zero => omega
    | succ m =>
      simp only [splitAllF]
      cases hs : splitOnce (c :: t) l with
      | none => rfl
      | some p =>
        have hb := splitOnce_some_length c t l p.1 p.2 (by rw [hs])
        show p.1 :: splitAllF (c :: t) n p.2 = p.1 :: splitAllF (c :: t) m p.2
        rw [ih m p.2 (by omega) (by omega)]

theorem splitAll_eq_single (c : Char) (t l : Str)
    (h : splitOnce (c :: t) l = Option.none) : splitAll (c :: t) l = [l] := by
  rw [splitAll, splitAllF, h]

theorem splitAll_eq_cons (c : Char) (t l a b : Str)
    (h : splitOnce (c :: t) l = some (a, b)) :
    splitAll (c :: t) l = a :: splitAll (c :: t) b := by
  rw [splitAll, splitAllF, h, splitAll]
  have hb := splitOnce_some_length c t l a b h
  show a :: splitAllF (c :: t) l.length b = a :: splitAllF (c :: t) (b.length + 1) b
  rw [splitAllF_fuel c t l.length (b.length + 1) b (by omega) (by omega)]

theorem splitAll_pyJoin (c : Char) (t : Str) (lines : List Str)
    (hne : lines ≠ []) (hfree : ∀ l ∈ lines, c ∉ l) :
    splitAll (c :: t) (pyJoin (c :: t) lines) = lines := by
  induction lines with
  | nil => exact absurd rfl hne
  | cons l rest ih =>
    cases rest with
    | nil =>
      have hl : c ∉ l := hfree l (List.mem_cons_self l [])
      show splitAll (c :: t) l = [l]
      exact splitAll_eq_single c t l (splitOnce_not_contains c t l hl)
    | cons l2 rest2 =>
      have hl : c ∉ l := hfree l (by simp)
      have hj : pyJoin (c :: t) (l :: l2 :: rest2) =
          l ++ (c :: t) ++ pyJoin (c :: t) (l2 :: rest2) := rfl
      rw [hj, splitAll_eq_cons c t _ l (pyJoin (c :: t) (l2 :: rest2))
        (splitOnce_boundary c t l _ hl)]
      rw [ih (by simp) (fun x hx => hfree x (List.mem_cons_of_mem l hx))]

theorem unquotePlus_cons_plain (c : Char) (rest : Str) (h1 : c ≠ '+') (h2 : c ≠ '%') :
    unquotePlus (c :: rest) = c :: unquotePlus rest := by
  cases rest with
  | nil => simp [unquotePlus, h1, h2]
  | cons a rest' =>
    cases rest' with
    | nil => simp [unquotePlus, h1, h2]
    | cons b rest'' => simp [unquotePlus, h1, h2]

theorem unquotePlus_append_plain (a b : Str) (h : ∀ c ∈ a, c ≠ '+' ∧ c ≠ '%') :
    unquotePlus (a ++ b) = a ++ unquotePlus b := by
  induction a with
  | nil => rfl
  | cons c a' ih =>
    have hc := h c (by simp)
    rw [List.cons_append, unquotePlus_cons_plain c (a' ++ b) hc.1 hc.2,
      ih (fun x hx => h x (List.mem_cons_of_mem c hx))]
    rfl

theorem unquotePlus_plain (a : Str) (h : ∀ c ∈ a, c ≠ '+' ∧ c ≠ '%') :
    unquotePlus a = a := by
  have h2 := unquotePlus_append_plain a [] h
  rw [List.append_nil] at h2
  rw [h2]
  simp [unquotePlus]

theorem unquotePlus_pct (a b : Char) (x y : Nat) (rest : Str)
    (ha : hexVal a = some x) (hb : hexVal b = some y) :
    unquotePlus ('%' :: a :: b :: rest) = Char.ofNat (16 * x + y) :: unquotePlus rest := by
  simp [unquotePlus, ha, hb]

theorem plainChar_facts (c : Char) (h : isPlainChar c = true) :
    c ≠ '+' ∧ c ≠ '%' ∧ c ≠ '&' ∧ c ≠ '=' ∧ c ≠ ':' ∧ c ≠ '?' ∧ ¬(isPyWs c = true) := by
  simp only [isPlainChar, Bool.and_eq_true, Bool.not_eq_true', decide_eq_true_eq,
    bne_iff_ne, ne_eq] at h
  refine ⟨?_, ?_, ?_, ?_, ?_, ?_, ?_⟩ <;> simp_all

/-- Claim C6 (code bug): the spec requires `quit()` to be idempotent and
safe on an already-dead process; in the code the first `quit()` closes the
Process object, so a second `quit()` raises `ValueError` from
`Process.terminate`. The first call does leave the process non-alive, on a
running and on an already-dead channel alike. -/
theorem quit_twice_raises :
    PipedProcess.quit PipedProcess.running = .ok ⟨⟨false, true⟩, true⟩ ∧
    PipedProcess.quit PipedProcess.finished = .ok ⟨⟨false, true⟩, true⟩ ∧
    PipedProcess.quit ⟨⟨false, true⟩, true⟩ = .error PyExc.valueError :=
  ⟨rfl, rfl, rfl⟩

theorem web_normalize_default (v : PyVal) (h0 : PyDict) (hnt : isTuple3 v = false) :
    web_normalize_response h0 v =
      .ok (.pyStatus (if pyTruthy v then HTTPStatus.OK else HTTPStatus.NOT_IMPLEMENTED),
        h0, .pyStr (pyStrOf v)) := by
  cases v with
  | pyTuple l =>
    match l, hnt with
    | [], _ => rfl
    | [a], _ => rfl
    | [a, b], _ => rfl
    | [a, b, c], hnt => simp [isTuple3] at hnt
    | a :: b :: c :: d :: rest, _ => rfl
  | pyNone => rfl
  | pyBool b => rfl
  | pyInt n => rfl
  | pyFloat lit => rfl
  | pyStr s => rfl
  | pyList l => rfl
  | pyDict d => rfl
  | pyStatus s => rfl

/-- Claim C1, counterexample: a falsy non-tuple handler result (here
`None`) yields status 501 Not Implemented, not the 404 the claim states. -/
theorem web_falsy_result_is_501_not_404 :
    web_normalize_response [] PyVal.pyNone =
      .ok (.pyStatus HTTPStatus.NOT_IMPLEMENTED, [], .pyStr "None".data) ∧
    HTTPStatus.NOT_IMPLEMENTED.value = 501 ∧ ¬(501 = 404) :=
  ⟨rfl, rfl, by decide⟩

/-- Claim C1 (amended): with no view template body set, a matched route
whose handler returns a falsy non-3-tuple result produces a 501 Not
Implemented response (not 404), and a truthy non-3-tuple result produces a
200 response whose body is the string form of the result. -/
theorem web_normalize_no_template (v : PyVal) (h0 : PyDict) (hnt : isTuple3 v = false) :
    (pyTruthy v = false →
      web_normalize_response h0 v =
        .ok (.pyStatus HTTPStatus.NOT_IMPLEMENTED, h0, .pyStr (pyStrOf v))) ∧
    (pyTruthy v = true →
      web_normalize_response h0 v =
        .ok (.pyStatus HTTPStatus.OK, h0, .pyStr (pyStrOf v))) := by
  constructor
  · intro hf
    rw [web_normalize_default v h0 hnt, hf]
    rfl
  · intro ht
    rw [web_normalize_default v h0 hnt, ht]
    rfl

/-- Claim C1, witness: the amended theorem applied at the falsy result
`None` and the truthy result `'ok'`. -/
theorem web_normalize_no_template_witness :
    (isTuple3 PyVal.pyNone = false ∧ pyTruthy PyVal.pyNone = false ∧
      web_normalize_response [] PyVal.pyNone =
        .ok (.pyStatus HTTPStatus.NOT_IMPLEMENTED, [], .pyStr (pyStrOf PyVal.pyNone))) ∧
    (isTuple3 (PyVal.pyStr "ok".data) = false ∧ pyTruthy (PyVal.pyStr "ok".data) = true ∧
      web_normalize_response [] (PyVal.pyStr "ok".data) =
        .ok (.pyStatus HTTPStatus.OK, [], .pyStr (pyStrOf (PyVal.pyStr "ok".data)))) :=
  ⟨⟨rfl, rfl, (web_normalize_no_template PyVal.pyNone [] rfl).1 rfl⟩,
   ⟨rfl, rfl, (web_normalize_no_template (PyVal.pyStr "ok".data) [] rfl).2 rfl⟩⟩

/-- Claim C2, counterexample: a route parameter annotated `int` bound to
the non-numeric string `'abc'` makes the dispatcher raise `ValueError`
(the coercion happens before the `try` that produces 500 responses), so
dispatch does not recover into a 500 response. -/
theorem coercion_failure_raises :
    invokeHandler [] [("id".data, Annot.intA)] [("id".data, PyVal.pyStr "abc".data)]
        (fun _ => .ok (.pyStr "x".data)) = .error PyExc.valueError ∧
    invokeHandler [] [("id".data, Annot.intA)] [("id".data, PyVal.pyStr "abc".data)]
        (fun _ => .ok (.pyStr "x".data)) ≠
      .ok (.pyTuple [.pyStatus HTTPStatus.INTERNAL_SERVER_ERROR, .pyDict [], .pyStr []]) :=
  ⟨rfl, by
    have h : invokeHandler [] [("id".data, Annot.intA)] [("id".data, PyVal.pyStr "abc".data)]
        (fun _ => .ok (.pyStr "x".data)) = .error PyExc.valueError := rfl
    rw [h]
    simp⟩

/-- Claim C2 (amended): a parameter-binding failure — in particular a type
coercion the declared constructor rejects — propagates out of the
dispatcher as the raised exception; only a `TypeError` raised by the
handler invocation itself is recovered into a 500 response. -/
theorem dispatch_binding_behavior :
    (∀ (tb : Str) (sig : List (Str × Annot)) (cp : PyDict)
        (call : PyDict → Except PyExc PyVal) (e : PyExc),
      bindParams sig cp = .error e → invokeHandler tb sig cp call = .error e) ∧
    (∀ (tb : Str) (sig : List (Str × Annot)) (cp : PyDict)
        (call : PyDict → Except PyExc PyVal) (kwargs : PyDict),
      bindParams sig cp = .ok kwargs → call kwargs = .error .typeError →
        invokeHandler tb sig cp call =
          .ok (.pyTuple [.pyStatus HTTPStatus.INTERNAL_SERVER_ERROR, .pyDict [], .pyStr []])) := by
  constructor
  · intro tb sig cp call e h
    rw [invokeHandler, h]
  · intro tb sig cp call kwargs hbind hcall
    rw [invokeHandler, hbind]
    simp only [hcall]

/-- Claim C2, witness: the amended theorem applied to the concrete failing
binding `int('abc')` and to a concrete handler raising `TypeError`. -/
theorem dispatch_binding_behavior_witness :
    (bindParams [("id".data, Annot.intA)] [("id".data, PyVal.pyStr "abc".data)] =
        .error PyExc.valueError ∧
      invokeHandler [] [("id".data, Annot.intA)] [("id".data, PyVal.pyStr "abc".data)]
        (fun _ => .ok PyVal.pyNone) = .error PyExc.valueError) ∧
    (bindParams [] [] = .ok [] ∧
      invokeHandler [] [] [] (fun _ => .error .typeError) =
        .ok (.pyTuple [.pyStatus HTTPStatus.INTERNAL_SERVER_ERROR, .pyDict [], .pyStr []])) :=
  ⟨⟨rfl, dispatch_binding_behavior.1 [] _ _ _ _ rfl⟩,
   ⟨rfl, dispatch_binding_behavior.2 [] [] [] (fun _ => .error .typeError) [] rfl rfl⟩⟩

/-- Claim C7: request parsing fails on every input whose start-line the
method/path/version pattern rejects (with the ad-hoc `Exception`) and on
every input without the blank-line header/body separator (with the
`ValueError` from two-name tuple unpacking), and it succeeds only on
inputs satisfying both conditions. -/
theorem parse_http_request_failure_conditions :
    (∀ data : Str, is_http_request data = false →
      parse_http_request data = .error .notHttpRequest) ∧
    (∀ data : Str, containsSub crlf2 data = false →
      ∃ e, parse_http_request data = .error e) ∧
    (∀ (data : Str) (r : PyDict), parse_http_request data = .ok r →
      is_http_request data = true ∧ containsSub crlf2 data = true) := by
  refine ⟨?_, ?_, ?_⟩
  · intro data h
    rw [parse_http_request, h]
    rfl
  · intro data h
    rw [containsSub] at h
    have h : splitOnce crlf2 data = Option.none := by
      cases hs : splitOnce crlf2 data with
      | none => rfl
      | some p => rw [hs] at h; cases h
    rw [parse_http_request]
    by_cases hr : is_http_request data
    · rw [hr]
      simp only [Bool.not_true, Bool.false_eq_true, if_false, h]
      exact ⟨.valueError, rfl⟩
    · rw [Bool.not_eq_true] at hr
      rw [hr]
      exact ⟨.notHttpRequest, rfl⟩
  · intro data r h
    rw [parse_http_request] at h
    by_cases hr : is_http_request data
    · refine ⟨hr, ?_⟩
      rw [hr] at h
      simp only [Bool.not_true, Bool.false_eq_true, if_false] at h
      cases hs : splitOnce crlf2 data with
      | none => rw [hs] at h; cases h
      | some p => rw [containsSub, hs]; rfl
    · rw [Bool.not_eq_true] at hr
      rw [hr] at h
      cases h

/-- Claim C7, witness: the failure conditions applied to a start-line the
pattern rejects, to a valid start-line without the blank-line separator,
and the success direction applied to a complete request. -/
theorem parse_http_request_failure_conditions_witness :
    (is_http_request "garbage".data = false ∧
      parse_http_request "garbage".data = .error .notHttpRequest) ∧
    (containsSub crlf2 "GET /p HTTP/1.1\r\nHost: x".data = false ∧
      ∃ e, parse_http_request "GET /p HTTP/1.1\r\nHost: x".data = .error e) ∧
    (parse_http_request "GET /p HTTP/1.1\r\n\r\n".data =
        .ok [("method".data, .pyStr "GET".data),
             ("http_version".data, .pyStr "HTTP/1.1".data),
             ("path".data, .pyStr "/p".data),
             ("parameters".data, .pyDict []),
             ("body".data, .pyDict [])] ∧
      is_http_request "GET /p HTTP/1.1\r\n\r\n".data = true ∧
      containsSub crlf2 "GET /p HTTP/1.1\r\n\r\n".data = true) :=
  ⟨⟨rfl, parse_http_request_failure_conditions.1 "garbage".data rfl⟩,
   ⟨rfl, parse_http_request_failure_conditions.2.1 "GET /p HTTP/1.1\r\nHost: x".data rfl⟩,
   rfl, parse_http_request_failure_conditions.2.2 "GET /p HTTP/1.1\r\n\r\n".data _ rfl⟩

/-- Claim C5: for a non-empty body whose content type is neither
form-urlencoded nor multipart, body parsing attempts a JSON parse; a parse
failure yields the empty mapping without raising, and a parse success
yields the parsed value. -/
theorem parse_http_body_json_fallback (body ct : Str) (hne : body ≠ [])
    (hct1 : ct ≠ "application/x-www-form-urlencoded".data)
    (hct2 : "multipart/form-data".data.isPrefixOf ct = false) :
    (jsonParse body = Option.none → parse_http_body body ct = .ok (.pyDict [])) ∧
    (∀ v, jsonParse body = some v → parse_http_body body ct = .ok v) := by
  have hlen : ¬(body.length = 0) := by
    simpa using fun hcon => hne (List.length_eq_zero.mp hcon)
  constructor
  · intro hj
    rw [parse_http_body, if_neg hlen, if_neg hct1]
    rw [if_neg (by rw [hct2]; exact Bool.false_ne_true)]
    rw [hj]
  · intro v hj
    rw [parse_http_body, if_neg hlen, if_neg hct1]
    rw [if_neg (by rw [hct2]; exact Bool.false_ne_true)]
    rw [hj]

/-- Claim C5, witness: the fallback theorem applied at an invalid JSON
payload (yielding the empty mapping) and at the payload from the spec's
example (yielding the parsed mapping). -/
theorem parse_http_body_json_fallback_witness :
    (jsonParse "notjson".data = Option.none ∧
      parse_http_body "notjson".data "application/json".data = .ok (.pyDict [])) ∧
    (jsonParse jsonExampleBody = some (.pyDict [("a".data, .pyInt 1)]) ∧
      parse_http_body jsonExampleBody "application/json".data =
        .ok (.pyDict [("a".data, .pyInt 1)])) :=
  ⟨⟨rfl, (parse_http_body_json_fallback "notjson".data "application/json".data
      (by decide) (by decide) (by decide)).1 rfl⟩,
   ⟨rfl, (parse_http_body_json_fallback jsonExampleBody "application/json".data
      (by decide) (by decide) (by decide)).2 _ rfl⟩⟩

theorem crlf_isSuffixOf_append (u : Str) : crlf.isSuffixOf (u ++ crlf) = true := by
  rw [List.isSuffixOf, List.reverse_append]
  exact isPrefixOf_append_self crlf.reverse u.reverse

theorem prefix_nl_cr_false (vr rest : Str) (h : '\r' ∉ vr) :
    (['\n', '\r'] : Str).isPrefixOf (vr ++ ' ' :: ':' :: rest) = false := by
  cases vr with
  | nil =>
    apply isPrefixOf_cons_ne
    decide
  | cons x vr' =>
    cases vr' with
    | nil =>
      by_cases hx : x = '\n'
      · subst hx
        show (['\n', '\r'] : Str).isPrefixOf ('\n' :: ' ' :: ':' :: rest) = false
        simp [List.isPrefixOf]
      · exact isPrefixOf_cons_ne '\n' x ['\r'] _ hx
    | cons y vr'' =>
      by_cases hx : x = '\n'
      · subst hx
        have hy : y ≠ '\r' := fun hcon => h (by rw [hcon] at *; simp)
        show (['\n', '\r'] : Str).isPrefixOf ('\n' :: y :: (vr'' ++ _)) = false
        simp [List.isPrefixOf]
        intro hcon
        exact absurd hcon.symm hy
      · exact isPrefixOf_cons_ne '\n' x ['\r'] _ hx

theorem crlf_not_suffix_header_line (u k v : Str) (hv : '\r' ∉ v) :
    crlf.isSuffixOf (u ++ (k ++ ": ".data ++ v)) = false := by
  rw [List.isSuffixOf]
  have hrev : (u ++ (k ++ ": ".data ++ v)).reverse =
      v.reverse ++ ' ' :: ':' :: (k.reverse ++ u.reverse) := by
    simp [List.reverse_append]
  rw [hrev]
  have hvr : '\r' ∉ v.reverse := by simpa using hv
  exact prefix_nl_cr_false v.reverse _ hvr

theorem pyJoin_append_last (sep : Str) (xs : List Str) (x : Str) (hne : xs ≠ []) :
    pyJoin sep (xs ++ [x]) = pyJoin sep xs ++ sep ++ x := by
  induction xs with
  | nil => exact absurd rfl hne
  | cons l rest ih =>
    cases rest with
    | nil => rfl
    | cons l2 rest2 =>
      show l ++ sep ++ pyJoin sep ((l2 :: rest2) ++ [x]) = _
      rw [ih (by simp)]
      show l ++ sep ++ (pyJoin sep (l2 :: rest2) ++ sep ++ x) =
        (l ++ sep ++ pyJoin sep (l2 :: rest2)) ++ sep ++ x
      simp [List.append_assoc]

theorem build_http_response_status_unfold (s : HTTPStatus) (headers : List (Str × Str)) (body : Str) :
    build_http_response (.status s) headers body =
      .ok ((("HTTP/1.1 ".data ++ natStr s.value ++ [' '] ++ s.phrase ++ crlf) ++
          pyJoin crlf (headers.map (fun kv => kv.1 ++ ": ".data ++ kv.2))) ++
        (if crlf.isSuffixOf (("HTTP/1.1 ".data ++ natStr s.value ++ [' '] ++ s.phrase ++ crlf) ++
            pyJoin crlf (headers.map (fun kv => kv.1 ++ ": ".data ++ kv.2))) then crlf else crlf2) ++
        body) := rfl

/-- Claim C8, counterexample: with an empty headers mapping (which the
claim explicitly includes) the code emits a single blank-line separator
after the status line, not the status line's CRLF plus a further
`\r\n\r\n` that the claimed layout prescribes. -/
theorem build_http_response_empty_headers_collapses :
    build_http_response (.status HTTPStatus.OK) [] "x".data =
      .ok "HTTP/1.1 200 OK\r\n\r\nx".data ∧
    spec_response_bytes HTTPStatus.OK [] "x".data = "HTTP/1.1 200 OK\r\n\r\n\r\nx".data ∧
    ¬("HTTP/1.1 200 OK\r\n\r\nx".data = "HTTP/1.1 200 OK\r\n\r\n\r\nx".data) :=
  ⟨rfl, rfl, by decide⟩

/-- Claim C8 (amended): for every status and body, encoding with a
non-empty headers mapping whose last value does not contain CR produces
exactly the claimed bytes `HTTP/1.1 <code> <phrase>\r\n` + `key: value`
lines joined by CRLF + `\r\n\r\n` + body; with an empty headers mapping
the blank-line separator collapses onto the status line's CRLF, producing
`HTTP/1.1 <code> <phrase>\r\n\r\n` + body. -/
theorem build_http_response_format :
    (∀ (s : HTTPStatus) (hs : List (Str × Str)) (k v body : Str), '\r' ∉ v →
      build_http_response (.status s) (hs ++ [(k, v)]) body =
        .ok (spec_response_bytes s (hs ++ [(k, v)]) body)) ∧
    (∀ (s : HTTPStatus) (body : Str),
      build_http_response (.status s) [] body =
        .ok ("HTTP/1.1 ".data ++ natStr s.value ++ [' '] ++ s.phrase ++ crlf ++ crlf ++ body)) := by
  constructor
  · intro s hs k v body hv
    rw [build_http_response_status_unfold]
    have hmap : (hs ++ [(k, v)]).map (fun kv => kv.1 ++ ": ".data ++ kv.2) =
        hs.map (fun kv => kv.1 ++ ": ".data ++ kv.2) ++ [k ++ ": ".data ++ v] :=
      List.map_append _ _ _
    rw [hmap]
    cases hcase : hs.map (fun kv => kv.1 ++ ": ".data ++ kv.2) with
    | nil =>
      have hsuf : crlf.isSuffixOf
          (("HTTP/1.1 ".data ++ natStr s.value ++ [' '] ++ s.phrase ++ crlf) ++
            pyJoin crlf ([] ++ [k ++ ": ".data ++ v])) = false := by
        show crlf.isSuffixOf
          (("HTTP/1.1 ".data ++ natStr s.value ++ [' '] ++ s.phrase ++ crlf) ++
            (k ++ ": ".data ++ v)) = false
        exact crlf_not_suffix_header_line _ k v hv
      rw [hsuf]
      simp only [Bool.false_eq_true, if_false]
      rw [spec_response_bytes, hmap, hcase]
    | cons line rest =>
      have hjoin : pyJoin crlf ((line :: rest) ++ [k ++ ": ".data ++ v]) =
          pyJoin crlf (line :: rest) ++ crlf ++ (k ++ ": ".data ++ v) :=
        pyJoin_append_last crlf (line :: rest) _ (by simp)
      rw [hjoin]
      have hsuf : crlf.isSuffixOf
          (("HTTP/1.1 ".data ++ natStr s.value ++ [' '] ++ s.phrase ++ crlf) ++
            (pyJoin crlf (line :: rest) ++ crlf ++ (k ++ ": ".data ++ v))) = false := by
        have hshape : ("HTTP/1.1 ".data ++ natStr s.value ++ [' '] ++ s.phrase ++ crlf) ++
            (pyJoin crlf (line :: rest) ++ crlf ++ (k ++ ": ".data ++ v)) =
            (("HTTP/1.1 ".data ++ natStr s.value ++ [' '] ++ s.phrase ++ crlf) ++
              pyJoin crlf (line :: rest) ++ crlf) ++ (k ++ ": ".data ++ v) := by
          simp [List.append_assoc]
        rw [hshape]
        exact crlf_not_suffix_header_line _ k v hv
      rw [hsuf]
      simp only [Bool.false_eq_true, if_false]
      rw [spec_response_bytes, hmap, hcase, hjoin]
  · intro s body
    rw [build_http_response_status_unfold]
    show Except.ok ((("HTTP/1.1 ".data ++ natStr s.value ++ [' '] ++ s.phrase ++ crlf) ++ []) ++
      (if crlf.isSuffixOf (("HTTP/1.1 ".data ++ natStr s.value ++ [' '] ++ s.phrase ++ crlf) ++ [])
        then crlf else crlf2) ++ body) = _
    rw [List.append_nil]
    have hsuf : crlf.isSuffixOf
        ("HTTP/1.1 ".data ++ natStr s.value ++ [' '] ++ s.phrase ++ crlf) = true := by
      have hshape : "HTTP/1.1 ".data ++ natStr s.value ++ [' '] ++ s.phrase ++ crlf =
          ("HTTP/1.1 ".data ++ natStr s.value ++ [' '] ++ s.phrase) ++ crlf := by
        simp [List.append_assoc]
      rw [hshape]
      exact crlf_isSuffixOf_append _
    rw [hsuf]
    simp [List.append_assoc]

/-- Claim C8, witness: the amended layout theorem applied at status 200, a
one-entry headers mapping and a concrete body, and at the empty headers
mapping. -/
theorem build_http_response_format_witness :
    ('\r' ∉ "close".data ∧
      build_http_response (.status HTTPStatus.OK) [("Connection".data, "close".data)] "hi".data =
        .ok (spec_response_bytes HTTPStatus.OK [("Connection".data, "close".data)] "hi".data)) ∧
    build_http_response (.status HTTPStatus.NOT_FOUND) [] "".data =
      .ok ("HTTP/1.1 ".data ++ natStr HTTPStatus.NOT_FOUND.value ++ [' '] ++
        HTTPStatus.NOT_FOUND.phrase ++ crlf ++ crlf ++ "".data) :=
  ⟨⟨by decide, build_http_response_format.1 HTTPStatus.OK [] "Connection".data "close".data
      "hi".data (by decide)⟩,
   build_http_response_format.2 HTTPStatus.NOT_FOUND "".data⟩

theorem plain_no_sep (a : Str) (h : ∀ c ∈ a, isPlainChar c = true) :
    '&' ∉ a ∧ '=' ∉ a ∧ ∀ c ∈ a, c ≠ '+' ∧ c ≠ '%' := by
  refine ⟨fun hmem => ?_, fun hmem => ?_, fun c hmem => ?_⟩
  · exact (plainChar_facts '&' (h '&' hmem)).2.2.1 rfl
  · exact (plainChar_facts '=' (h '=' hmem)).2.2.2.1 rfl
  · have hf := plainChar_facts c (h c hmem)
    exact ⟨hf.1, hf.2.1⟩

theorem unquotePlus_pct26 (rest : Str) :
    unquotePlus ('%' :: '2' :: '6' :: rest) = '&' :: unquotePlus rest := by
  rw [unquotePlus_pct '2' '6' 2 6 rest rfl rfl]

theorem unquotePlus_pct3D (rest : Str) :
    unquotePlus ('%' :: '3' :: 'D' :: rest) = '=' :: unquotePlus rest := by
  rw [unquotePlus_pct '3' 'D' 3 13 rest rfl rfl]

/-- Claim C10: `parse_url_parameters` percent-decodes the whole query
string before splitting, so an encoded `%26` or `%3D` inside a value acts
as a separator after decoding: the first conjunct shows `k=v%26w1%3Dw2`
parsing into the two pairs `(k, v)` and `(w1, w2)` rather than the single
pre-encoding pair, and the second shows that a decoded pair with no `=`
(`k%26w` with plain `k`) makes parsing raise `ValueError`. -/
theorem parse_url_parameters_decodes_before_split :
    (∀ k v w1 w2 : Str, (∀ c ∈ k, isPlainChar c = true) → (∀ c ∈ v, isPlainChar c = true) →
      (∀ c ∈ w1, isPlainChar c = true) → (∀ c ∈ w2, isPlainChar c = true) → k ≠ w1 →
      parse_url_parameters
          (k ++ ('=' :: (v ++ ('%' :: '2' :: '6' :: (w1 ++ ('%' :: '3' :: 'D' :: w2)))))) =
        .ok [(k, v), (w1, w2)]) ∧
    (∀ k w : Str, (∀ c ∈ k, isPlainChar c = true) → (∀ c ∈ w, isPlainChar c = true) →
      parse_url_parameters (k ++ ('%' :: '2' :: '6' :: w)) = .error .valueError) := by
  constructor
  · intro k v w1 w2 hk hv hw1 hw2 hkw
    obtain ⟨hkamp, hkeq, hkpct⟩ := plain_no_sep k hk
    obtain ⟨hvamp, hveq, hvpct⟩ := plain_no_sep v hv
    obtain ⟨hw1amp, hw1eq, hw1pct⟩ := plain_no_sep w1 hw1
    obtain ⟨hw2amp, hw2eq, hw2pct⟩ := plain_no_sep w2 hw2
    have hdec : unquotePlus
        (k ++ ('=' :: (v ++ ('%' :: '2' :: '6' :: (w1 ++ ('%' :: '3' :: 'D' :: w2)))))) =
        k ++ ('=' :: (v ++ ('&' :: (w1 ++ ('=' :: w2))))) := by
      rw [unquotePlus_append_plain k _ hkpct,
        unquotePlus_cons_plain '=' _ (by decide) (by decide),
        unquotePlus_append_plain v _ hvpct, unquotePlus_pct26,
        unquotePlus_append_plain w1 _ hw1pct, unquotePlus_pct3D,
        unquotePlus_plain w2 hw2pct]
    rw [parse_url_parameters, hdec]
    have hnoamp : '&' ∉ k ++ '=' :: v := by
      intro hmem
      rcases List.mem_append.mp hmem with hm | hm
      · exact hkamp hm
      · rcases List.mem_cons.mp hm with hm2 | hm2
        · cases hm2
        · exact hvamp hm2
    have hnoamp2 : '&' ∉ w1 ++ '=' :: w2 := by
      intro hmem
      rcases List.mem_append.mp hmem with hm | hm
      · exact hw1amp hm
      · rcases List.mem_cons.mp hm with hm2 | hm2
        · cases hm2
        · exact hw2amp hm2
    have hsplitamp : splitAll ['&'] (k ++ ('=' :: (v ++ ('&' :: (w1 ++ ('=' :: w2)))))) =
        [k ++ '=' :: v, w1 ++ '=' :: w2] := by
      have hshape : k ++ ('=' :: (v ++ ('&' :: (w1 ++ ('=' :: w2))))) =
          (k ++ '=' :: v) ++ ['&'] ++ (w1 ++ '=' :: w2) := by
        simp
      rw [hshape]
      rw [splitAll_eq_cons '&' [] _ _ _ (splitOnce_boundary '&' [] _ _ hnoamp)]
      rw [splitAll_eq_single '&' [] _ (splitOnce_not_contains '&' [] _ hnoamp2)]
    rw [hsplitamp]
    have hp1 : splitOnce ['='] (k ++ '=' :: v) = some (k, v) := by
      have hshape : k ++ '=' :: v = k ++ ['='] ++ v := by simp
      rw [hshape]
      exact splitOnce_boundary '=' [] k v hkeq
    have hp2 : splitOnce ['='] (w1 ++ '=' :: w2) = some (w1, w2) := by
      have hshape : w1 ++ '=' :: w2 = w1 ++ ['='] ++ w2 := by simp
      rw [hshape]
      exact splitOnce_boundary '=' [] w1 w2 hw1eq
    simp only [urlParamsLoop, hp1, hp2]
    simp [alInsert, hkw]
  · intro k w hk hw
    obtain ⟨hkamp, hkeq, hkpct⟩ := plain_no_sep k hk
    obtain ⟨hwamp, hweq, hwpct⟩ := plain_no_sep w hw
    have hdec : unquotePlus (k ++ ('%' :: '2' :: '6' :: w)) = k ++ ('&' :: w) := by
      rw [unquotePlus_append_plain k _ hkpct, unquotePlus_pct26, unquotePlus_plain w hwpct]
    rw [parse_url_parameters, hdec]
    have hsplit : splitAll ['&'] (k ++ ('&' :: w)) = [k, w] := by
      have hshape : k ++ ('&' :: w) = k ++ ['&'] ++ w := by simp
      rw [hshape, splitAll_eq_cons '&' [] _ _ _ (splitOnce_boundary '&' [] _ _ hkamp),
        splitAll_eq_single '&' [] _ (splitOnce_not_contains '&' [] _ hwamp)]
    rw [hsplit]
    simp only [urlParamsLoop, splitOnce_not_contains '=' [] k hkeq]

/-- Claim C10, witness: the theorem applied to the concrete query strings
`a=1%26b%3D2` (two pairs after decoding) and `a%26b` (raises). -/
theorem parse_url_parameters_decodes_before_split_witness :
    parse_url_parameters "a=1%26b%3D2".data = .ok [("a".data, "1".data), ("b".data, "2".data)] ∧
    parse_url_parameters "a%26b".data = .error .valueError :=
  ⟨parse_url_parameters_decodes_before_split.1 "a".data "1".data "b".data "2".data
      (by decide) (by decide) (by decide) (by decide) (by decide),
   parse_url_parameters_decodes_before_split.2 "a".data "b".data (by decide) (by decide)⟩

theorem takeWhile_all (p : Char → Bool) (s : Str) (h : ∀ c ∈ s, p c = true) :
    s.takeWhile p = s := by
  induction s with
  | nil => rfl
  | cons c rest ih =>
    rw [List.takeWhile_cons, h c (by simp), ih (fun x hx => h x (List.mem_cons_of_mem c hx))]
    simp

theorem slashPath_cons (s : Str) (rest : List Str) :
    slashPath (s :: rest) = '/' :: s ++ slashPath rest := by
  cases rest with
  | nil => simp [slashPath, pyJoin]
  | cons s2 rest2 =>
    show pyJoin ['/'] ([] :: s :: s2 :: rest2) = '/' :: s ++ pyJoin ['/'] ([] :: s2 :: rest2)
    show [] ++ ['/'] ++ pyJoin ['/'] (s :: s2 :: rest2) = _
    show '/' :: pyJoin ['/'] (s :: s2 :: rest2) = _
    show '/' :: (s ++ ['/'] ++ pyJoin ['/'] (s2 :: rest2)) = _
    show _ = '/' :: s ++ ([] ++ ['/'] ++ pyJoin ['/'] (s2 :: rest2))
    simp

theorem marker_match_false (s : Str) (h : s.headD ' ' ≠ ':') :
    (":".data).isPrefixOf s = false := by
  cases s with
  | nil => rfl
  | cons c rest => exact isPrefixOf_cons_ne ':' c [] rest (by simpa using h)

theorem map_regexCharElem_safe (s : Str) (h : ∀ c ∈ s, isSafeLitChar c = true) :
    s.map regexCharElem = s.map RElem.lit := by
  induction s with
  | nil => rfl
  | cons c rest ih =>
    have hc : c ≠ '.' := by
      have := h c (by simp)
      simp only [isSafeLitChar, Bool.not_eq_true', decide_eq_false_iff_not] at this
      intro hcon
      exact this (by rw [hcon]; simp)
    simp only [List.map_cons]
    rw [ih (fun x hx => h x (List.mem_cons_of_mem c hx))]
    simp [regexCharElem, hc]

theorem build_regex_foldl (segs : List Str) (acc : List RElem)
    (h : ∀ s ∈ segs, s ≠ [] ∧ s.headD ' ' ≠ ':' ∧ ∀ c ∈ s, isSafeLitChar c = true) :
    segs.foldl (fun acc part =>
      if part = [] then acc
      else if (":".data).isPrefixOf part then
        acc ++ [RElem.lit '/', RElem.group (part.drop 1)]
      else acc ++ (RElem.lit '/' :: part.map regexCharElem)) acc =
    acc ++ (slashPath segs).map RElem.lit := by
  induction segs generalizing acc with
  | nil => simp [slashPath, pyJoin]
  | cons s rest ih =>
    obtain ⟨hne, hhead, hsafe⟩ := h s (by simp)
    rw [List.foldl_cons]
    rw [if_neg hne, if_neg (by rw [marker_match_false s hhead]; exact Bool.false_ne_true)]
    rw [ih _ (fun x hx => h x (List.mem_cons_of_mem s hx))]
    rw [slashPath_cons, map_regexCharElem_safe s hsafe]
    simp

theorem build_regex_url_literal (segs : List Str) (hne : segs ≠ [])
    (h : ∀ s ∈ segs, s ≠ [] ∧ s.headD ' ' ≠ ':' ∧ ∀ c ∈ s, isSafeLitChar c = true) :
    build_regex_url (slashPath segs) = (slashPath segs).map RElem.lit := by
  obtain ⟨s1, rest, hsegs⟩ : ∃ s1 rest, segs = s1 :: rest := by
    cases segs with
    | nil => exact absurd rfl hne
    | cons a b => exact ⟨a, b, rfl⟩
  have hs1 := h s1 (by rw [hsegs]; simp)
  have hlen : ¬((slashPath segs).length = 1) := by
    rw [hsegs, slashPath_cons]
    have : s1.length ≠ 0 := by
      intro hcon
      exact hs1.1 (List.length_eq_zero.mp hcon)
    simp only [List.cons_append, List.length_cons, List.length_append]
    omega
  rw [build_regex_url, if_neg hlen]
  have hsplit : splitAll ['/'] (slashPath segs) = [] :: segs := by
    have hfree : ∀ l ∈ ([] :: segs : List Str), '/' ∉ l := by
      intro l hl
      rcases List.mem_cons.mp hl with h1 | h1
      · rw [h1]; simp
      · intro hmem
        have := (h l h1).2.2 '/' hmem
        simp [isSafeLitChar] at this
    exact splitAll_pyJoin '/' [] ([] :: segs) (by simp) hfree
  rw [hsplit, List.foldl_cons]
  rw [if_pos rfl]
  exact build_regex_foldl segs [] h

theorem matchElems_lits (cs : Str) (es : List RElem) (xs : Str) :
    matchElems (cs.map RElem.lit ++ es) xs =
      if cs.isPrefixOf xs then matchElems es (xs.drop cs.length) else Option.none := by
  induction cs generalizing xs with
  | nil => simp [List.isPrefixOf]
  | cons c cs' ih =>
    cases xs with
    | nil =>
      show matchElems (RElem.lit c :: (cs'.map RElem.lit ++ es)) [] = _
      rw [matchElems]
      simp [List.isPrefixOf]
    | cons x xs' =>
      show matchElems (RElem.lit c :: (cs'.map RElem.lit ++ es)) (x :: xs') = _
      rw [matchElems]
      by_cases hx : x = c
      · subst hx
        rw [if_pos rfl, ih xs']
        have hpre : (x :: cs').isPrefixOf (x :: xs') = cs'.isPrefixOf xs' := by
          simp [List.isPrefixOf]
        rw [hpre]
        by_cases hp : cs'.isPrefixOf xs'
        · rw [if_pos hp, if_pos hp]
          rfl
        · rw [if_neg hp, if_neg hp]
      · rw [if_neg hx]
        rw [isPrefixOf_cons_ne c x cs' xs' hx]
        simp

theorem matchElems_lits_only (pat xs : Str) :
    (matchElems (pat.map RElem.lit) xs).isSome = true ↔
      (xs = pat ∨ xs = pat ++ ['\n']) := by
  have h := matchElems_lits pat [] xs
  rw [List.append_nil] at h
  rw [h]
  by_cases hp : pat.isPrefixOf xs
  · rw [if_pos hp]
    obtain ⟨rest, hrest⟩ := List.isPrefixOf_iff_prefix.mp hp
    subst hrest
    rw [List.drop_left]
    rw [matchElems]
    constructor
    · intro hsome
      by_cases hr : rest = [] ∨ rest = ['\n']
      · rcases hr with hr1 | hr1
        · exact Or.inl (by rw [hr1, List.append_nil])
        · exact Or.inr (by rw [hr1])
      · rw [if_neg hr] at hsome
        cases hsome
    · intro heq
      have hr : rest = [] ∨ rest = ['\n'] := by
        rcases heq with h1 | h1
        · have hlen := congrArg List.length h1
          simp only [List.length_append] at hlen
          exact Or.inl (List.length_eq_zero.mp (by omega))
        · have h2 := congrArg (List.drop pat.length) h1
          rw [List.drop_left, List.drop_left] at h2
          exact Or.inr h2
      rw [if_pos hr]
      rfl
  · rw [if_neg hp]
    constructor
    · intro hsome
      cases hsome
    · intro heq
      rcases heq with h1 | h1
      · subst h1
        exact absurd (List.isPrefixOf_iff_prefix.mpr (List.prefix_refl _)) hp
      · subst h1
        exact absurd (List.isPrefixOf_iff_prefix.mpr ⟨['\n'], rfl⟩) hp

theorem users_id_elems :
    build_regex_url "/users/:id".data =
      "/users".data.map RElem.lit ++ [RElem.lit '/', RElem.group "id".data] := rfl

theorem users_id_capture (s : Str) (hne : s ≠ []) (hw : ∀ c ∈ s, isWordChar c = true) :
    regex_url_match "/users/:id".data ("/users/".data ++ s) = some [("id".data, s)] := by
  rw [regex_url_match, users_id_elems]
  have hshape : "/users/".data ++ s = "/users".data ++ ('/' :: s) := rfl
  rw [hshape, matchElems_lits]
  rw [if_pos (isPrefixOf_append_self "/users".data ('/' :: s))]
  rw [List.drop_left]
  rw [matchElems]
  rw [if_pos rfl]
  rw [matchElems]
  rw [takeWhile_all isWordChar s hw]
  rw [if_neg hne]
  rw [List.drop_length]
  rw [matchElems]
  rfl

/-- Claim C4, counterexample: literal segments are spliced into the regex
unescaped, so the pattern `/a.b` — made only of "literal" segments —
matches the different path `/axb` (`.` keeps its any-character regex
meaning); moreover the `$` anchor also matches just before a trailing
newline, so the metacharacter-free pattern `/a/b` matches the different
path `/a/b` followed by a newline (reachable as `%0A` in a request path).
Both refute "other segments are matched only as their literal self" and
"a literal-only pattern matches exactly its own path and no other". -/
theorem literal_dot_matches_other_path :
    (regex_url_match "/a.b".data "/axb".data = some [] ∧
      ¬("/axb".data = "/a.b".data)) ∧
    (regex_url_match "/a/b".data "/a/b\n".data = some [] ∧
      ¬("/a/b\n".data = "/a/b".data)) :=
  ⟨⟨rfl, by decide⟩, ⟨rfl, by decide⟩⟩

/-- Claim C4 (amended): the compiled matcher splits the pattern on `/`,
skips empty segments, turns a `:`-prefixed segment into a named capture of
one-or-more word characters, splices every other segment into the regex as
raw text — so such a segment matches only its literal self provided it
contains no regex metacharacter — and anchors at both ends, where the end
anchor `$`, as in Python, also matches just before a single trailing
newline. Concretely: a pattern of metacharacter-free literal segments
matches exactly its own normalized path and that path with one trailing
newline appended, and no other; `/users/:id` maps `/users/42` to
`{"id": "42"}` and rejects `/users`; and the `:id` capture accepts the
non-empty all-word-character suffixes. -/
theorem build_regex_url_behavior :
    (∀ segs : List Str, segs ≠ [] →
      (∀ s ∈ segs, s ≠ [] ∧ s.headD ' ' ≠ ':' ∧ ∀ c ∈ s, isSafeLitChar c = true) →
      ∀ path, (regex_url_match (slashPath segs) path).isSome = true ↔
        (path = slashPath segs ∨ path = slashPath segs ++ ['\n'])) ∧
    regex_url_match "/users/:id".data "/users/42".data = some [("id".data, "42".data)] ∧
    regex_url_match "/users/:id".data "/users".data = Option.none ∧
    (∀ s : Str, s ≠ [] → (∀ c ∈ s, isWordChar c = true) →
      regex_url_match "/users/:id".data ("/users/".data ++ s) = some [("id".data, s)]) := by
  refine ⟨?_, rfl, rfl, users_id_capture⟩
  intro segs hne h path
  rw [regex_url_match, build_regex_url_literal segs hne h]
  exact matchElems_lits_only (slashPath segs) path

/-- Claim C4, witness: the amended theorem applied at the literal pattern
`/a/b` (accepting `/a/b` and `/a/b` with a trailing newline, rejecting
`/a/x`) and at the capture suffix `42`. -/
theorem build_regex_url_behavior_witness :
    (regex_url_match "/a/b".data "/a/b".data).isSome = true ∧
    (regex_url_match "/a/b".data "/a/b\n".data).isSome = true ∧
    ¬((regex_url_match "/a/b".data "/a/x".data).isSome = true) ∧
    regex_url_match "/users/:id".data ("/users/".data ++ "42".data) =
      some [("id".data, "42".data)] :=
  ⟨(build_regex_url_behavior.1 ["a".data, "b".data] (by decide)
      (by decide) "/a/b".data).mpr (by decide),
   (build_regex_url_behavior.1 ["a".data, "b".data] (by decide)
      (by decide) "/a/b\n".data).mpr (by decide),
   fun hcon => by
    have h := (build_regex_url_behavior.1 ["a".data, "b".data] (by decide)
      (by decide) "/a/x".data).mp hcon
    exact absurd h (by decide),
   build_regex_url_behavior.2.2.2 "42".data (by decide) (by decide)⟩

theorem alLookup_alInsert_self {α β : Type} [DecidableEq α] (d : List (α × β)) (k : α) (v : β) :
    alLookup (alInsert d k v) k = some v := by
  induction d with
  | nil => simp [alInsert, alLookup]
  | cons kv rest ih =>
    by_cases hk : kv.1 = k
    · rw [show (kv :: rest) = (kv.1, kv.2) :: rest by rfl, alInsert, if_pos hk]
      simp [alLookup]
    · rw [show (kv :: rest) = (kv.1, kv.2) :: rest by rfl, alInsert, if_neg hk]
      rw [alLookup, if_neg hk]
      exact ih

theorem alLookup_alInsert_ne {α β : Type} [DecidableEq α] (d : List (α × β)) (k q : α) (v : β)
    (h : k ≠ q) : alLookup (alInsert d k v) q = alLookup d q := by
  induction d with
  | nil => simp [alInsert, alLookup, h]
  | cons kv rest ih =>
    by_cases hk : kv.1 = k
    · rw [show (kv :: rest) = (kv.1, kv.2) :: rest by rfl, alInsert, if_pos hk]
      rw [alLookup, if_neg h, alLookup, if_neg (hk ▸ h)]
    · rw [show (kv :: rest) = (kv.1, kv.2) :: rest by rfl, alInsert, if_neg hk]
      by_cases hq : kv.1 = q
      · rw [alLookup, if_pos hq, alLookup, if_pos hq]
      · rw [alLookup, if_neg hq, alLookup, if_neg hq]
        exact ih

theorem alLookup_cons_ne {α β : Type} [DecidableEq α] (d : List (α × β)) (k' q : α) (v' : β)
    (h : k' ≠ q) : alLookup ((k', v') :: d) q = alLookup d q := by
  rw [alLookup, if_neg h]

theorem alLookup_not_mem {α β : Type} [DecidableEq α] (d : List (α × β)) (q : α)
    (h : q ∉ d.map Prod.fst) : alLookup d q = Option.none := by
  induction d with
  | nil => rfl
  | cons kv rest ih =>
    have h1 : kv.1 ≠ q := by
      intro hcon
      exact h (by rw [← hcon]; simp)
    rw [show (kv :: rest) = (kv.1, kv.2) :: rest by rfl, alLookup, if_neg h1]
    exact ih (fun hcon => h (by simp; right; simpa using hcon))

theorem headers_foldl_lookup (hs : List (Str × Str)) :
    ∀ (r : PyDict) (q : Str), (hs.map Prod.fst).Nodup →
    (∀ kv ∈ hs, pyLower kv.1 = kv.1) →
    alLookup (hs.foldl (fun acc kv => alInsert acc (pyLower kv.1) (PyVal.pyStr kv.2)) r) q =
      (match alLookup hs q with
       | some v => some (PyVal.pyStr v)
       | Option.none => alLookup r q) := by
  induction hs with
  | nil => intro r q _ _; rfl
  | cons kv rest ih =>
    intro r q hnd hlow
    have hkl : pyLower kv.1 = kv.1 := hlow kv (by simp)
    have hnd' : (rest.map Prod.fst).Nodup := by
      rw [List.map_cons] at hnd
      exact (List.nodup_cons.mp hnd).2
    have hknotin : kv.1 ∉ rest.map Prod.fst := by
      rw [List.map_cons] at hnd
      exact (List.nodup_cons.mp hnd).1
    rw [List.foldl_cons, ih _ q hnd' (fun x hx => hlow x (List.mem_cons_of_mem kv hx))]
    by_cases hq : kv.1 = q
    · subst hq
      rw [alLookup_not_mem rest kv.1 hknotin]
      rw [show (kv :: rest) = (kv.1, kv.2) :: rest by rfl, alLookup, if_pos rfl]
      show alLookup (alInsert r (pyLower kv.1) (PyVal.pyStr kv.2)) kv.1 = some (PyVal.pyStr kv.2)
      rw [hkl, alLookup_alInsert_self]
    · rw [show (kv :: rest) = (kv.1, kv.2) :: rest by rfl, alLookup_cons_ne rest kv.1 q kv.2 hq]
      cases hrest : alLookup rest q with
      | some v => rfl
      | none =>
        rw [hkl, alLookup_alInsert_ne r kv.1 q _ hq]

theorem pySplitWsGo_word (w : Str) : ∀ (cur rest : Str), (∀ c ∈ w, isPyWs c = false) →
    pySplitWsGo cur (w ++ rest) = pySplitWsGo (w.reverse ++ cur) rest := by
  induction w with
  | nil => intro cur rest _; rfl
  | cons c w' ih =>
    intro cur rest h
    have hc : isPyWs c = false := h c (by simp)
    show pySplitWsGo cur (c :: (w' ++ rest)) = _
    rw [pySplitWsGo, hc]
    simp only [Bool.false_eq_true, if_false]
    rw [ih (c :: cur) rest (fun x hx => h x (List.mem_cons_of_mem c hx))]
    congr 1
    simp

theorem pySplitWsGo_space (cur rest : Str) (h : cur ≠ []) :
    pySplitWsGo cur (' ' :: rest) = cur.reverse :: pySplitWsGo [] rest := by
  rw [pySplitWsGo]
  rw [show isPyWs ' ' = true from rfl]
  simp [h]

theorem pySplitWsGo_end (cur : Str) (h : cur ≠ []) :
    pySplitWsGo cur [] = [cur.reverse] := by
  rw [pySplitWsGo]
  simp [h]

theorem pySplitWs_start_line (m p V : Str) (hm : m ≠ []) (hmw : ∀ c ∈ m, isPyWs c = false)
    (hp : p ≠ []) (hpw : ∀ c ∈ p, isPyWs c = false)
    (hV : V ≠ []) (hVw : ∀ c ∈ V, isPyWs c = false) :
    pySplitWs (m ++ ((' ' :: p) ++ (' ' :: V))) = [m, p, V] := by
  rw [pySplitWs]
  rw [pySplitWsGo_word m [] ((' ' :: p) ++ (' ' :: V)) hmw]
  rw [List.append_nil]
  show pySplitWsGo m.reverse (' ' :: (p ++ (' ' :: V))) = [m, p, V]
  rw [pySplitWsGo_space _ _ (by simpa using hm)]
  rw [List.reverse_reverse]
  rw [pySplitWsGo_word p [] (' ' :: V) hpw]
  rw [List.append_nil]
  rw [pySplitWsGo_space _ _ (by simpa using hp)]
  rw [List.reverse_reverse]
  have hVgo : pySplitWsGo [] V = pySplitWsGo V.reverse [] := by
    have h := pySplitWsGo_word V [] [] hVw
    rw [List.append_nil, List.append_nil] at h
    exact h
  rw [hVgo, pySplitWsGo_end _ (by simpa using hV), List.reverse_reverse]

theorem splitOnce_cons_step (sep : Str) (c : Char) (l : Str)
    (h : sep.isPrefixOf (c :: l) = false) :
    splitOnce sep (c :: l) = (splitOnce sep l).map (fun pr => (c :: pr.1, pr.2)) := by
  rw [splitOnce, if_neg (by rw [h]; exact Bool.false_ne_true)]
  cases hs : splitOnce sep l with
  | none => rfl
  | some p => rfl

theorem pyJoin_cons_exists (sep l : Str) (rest : List Str) :
    ∃ z, pyJoin sep (l :: rest) = l ++ z := by
  cases rest with
  | nil => exact ⟨[], (List.append_nil l).symm⟩
  | cons l2 rest2 =>
    refine ⟨sep ++ pyJoin sep (l2 :: rest2), ?_⟩
    show l ++ sep ++ pyJoin sep (l2 :: rest2) = _
    simp [List.append_assoc]

theorem crlf2_not_prefix_at_crlf (l2 z : Str) (h2 : l2 ≠ []) (hr : '\r' ∉ l2) :
    (('\r' :: ['\n', '\r', '\n']) : Str).isPrefixOf ('\r' :: '\n' :: (l2 ++ z)) = false := by
  cases l2 with
  | nil => exact absurd rfl h2
  | cons x t =>
    have hx : x ≠ '\r' := fun hcon => hr (by rw [hcon]; simp)
    show (('\r' :: ['\n', '\r', '\n']) : Str).isPrefixOf ('\r' :: '\n' :: x :: (t ++ z)) = false
    show (('\r' == '\r') && (('\n' == '\n') && (('\r' == x) &&
      (['\n'] : Str).isPrefixOf (t ++ z)))) = false
    have hbx : ('\r' == x) = false := by
      simp only [beq_eq_false_iff_ne, ne_eq]
      exact fun hcon => hx hcon.symm
    rw [hbx]
    simp

theorem splitOnce_crlf2_join (lines : List Str) :
    ∀ b : Str, lines ≠ [] → (∀ l ∈ lines, '\r' ∉ l ∧ l ≠ []) →
    splitOnce crlf2 (pyJoin crlf lines ++ crlf2 ++ b) = some (pyJoin crlf lines, b) := by
  induction lines with
  | nil => intro b hne _; exact absurd rfl hne
  | cons l rest ih =>
    intro b _ h
    obtain ⟨hlr, hlne⟩ := h l (by simp)
    rw [show crlf2 = ('\r' :: ['\n', '\r', '\n'] : Str) from rfl]
    cases rest with
    | nil =>
      show splitOnce ('\r' :: ['\n', '\r', '\n']) (l ++ ('\r' :: ['\n', '\r', '\n']) ++ b) =
        some (l, b)
      exact splitOnce_boundary '\r' ['\n', '\r', '\n'] l b hlr
    | cons l2 rest2 =>
      obtain ⟨h2r, h2ne⟩ := h l2 (by simp)
      obtain ⟨z, hz⟩ := pyJoin_cons_exists crlf l2 rest2
      have hjshape : pyJoin crlf (l :: l2 :: rest2) =
          l ++ (crlf ++ pyJoin crlf (l2 :: rest2)) := by
        show l ++ crlf ++ pyJoin crlf (l2 :: rest2) = _
        simp [List.append_assoc]
      rw [hjshape]
      have hshape2 : (l ++ (crlf ++ pyJoin crlf (l2 :: rest2))) ++
          ('\r' :: ['\n', '\r', '\n']) ++ b =
          l ++ ('\r' :: '\n' :: (pyJoin crlf (l2 :: rest2) ++ ('\r' :: ['\n', '\r', '\n']) ++ b)) := by
        show _ = l ++ (crlf ++ (pyJoin crlf (l2 :: rest2) ++ ('\r' :: ['\n', '\r', '\n']) ++ b))
        simp [List.append_assoc]
      rw [hshape2]
      rw [splitOnce_skip '\r' ['\n', '\r', '\n'] l _ hlr]
      have hstep1 : (('\r' :: ['\n', '\r', '\n']) : Str).isPrefixOf
          ('\r' :: '\n' :: (pyJoin crlf (l2 :: rest2) ++ ('\r' :: ['\n', '\r', '\n']) ++ b)) = false := by
        have hz2 : pyJoin crlf (l2 :: rest2) ++ ('\r' :: ['\n', '\r', '\n']) ++ b =
            l2 ++ (z ++ ('\r' :: ['\n', '\r', '\n']) ++ b) := by
          rw [hz]
          simp [List.append_assoc]
        rw [hz2]
        exact crlf2_not_prefix_at_crlf l2 _ h2ne h2r
      rw [splitOnce_cons_step _ _ _ hstep1]
      have hstep2 : (('\r' :: ['\n', '\r', '\n']) : Str).isPrefixOf
          ('\n' :: (pyJoin crlf (l2 :: rest2) ++ ('\r' :: ['\n', '\r', '\n']) ++ b)) = false :=
        isPrefixOf_cons_ne '\r' '\n' ['\n', '\r', '\n'] _ (by decide)
      rw [splitOnce_cons_step _ _ _ hstep2]
      have hih := ih b (by simp) (fun x hx => h x (List.mem_cons_of_mem l hx))
      rw [show crlf2 = ('\r' :: ['\n', '\r', '\n'] : Str) from rfl] at hih
      rw [hih]
      rfl

theorem takeWhile_append_stop (f : Char → Bool) (p rest : Str) (c : Char)
    (hp : ∀ x ∈ p, f x = true) (hc : f c = false) :
    (p ++ c :: rest).takeWhile f = p := by
  induction p with
  | nil => simp [List.takeWhile_cons, hc]
  | cons x p' ih =>
    rw [List.cons_append, List.takeWhile_cons, hp x (by simp),
      ih (fun y hy => hp y (List.mem_cons_of_mem x hy))]
    simp

theorem httpMethods_facts (m : Str) (hm : m ∈ httpMethods) :
    m ≠ [] ∧ (∀ c ∈ m, isPyWs c = false) ∧ '\r' ∉ m := by
  simp only [httpMethods, List.mem_cons, List.not_mem_nil, or_false] at hm
  rcases hm with rfl | rfl | rfl | rfl | rfl <;> exact ⟨by decide, by decide, by decide⟩

theorem matchRequestStartLine_encode (m p : Str) (hm : m ∈ httpMethods)
    (hp : p ≠ []) (hpw : ∀ c ∈ p, isPyWs c = false) :
    matchRequestStartLine (m ++ ((' ' :: p) ++ (' ' :: "HTTP/1.1".data))) = true := by
  rw [matchRequestStartLine, List.any_eq_true]
  refine ⟨m, hm, ?_⟩
  rw [isPrefixOf_append_self m _]
  rw [List.drop_left]
  show (true && (isPyWs ' ' && matchPathVersionAt (p ++ (' ' :: "HTTP/1.1".data)))) = true
  have hpv : matchPathVersionAt (p ++ (' ' :: "HTTP/1.1".data)) = true := by
    rw [matchPathVersionAt]
    have htw : (p ++ (' ' :: "HTTP/1.1".data)).takeWhile (fun c => !isPyWs c) = p := by
      apply takeWhile_append_stop
      · intro x hx
        rw [hpw x hx]
        rfl
      · rfl
    rw [htw]
    rw [List.drop_left]
    simp only [Bool.and_eq_true]
    refine ⟨⟨?_, rfl⟩, rfl⟩
    simpa using hp
  rw [hpv]
  rfl

theorem start_line_no_cr (m p : Str) (hm : m ∈ httpMethods)
    (hpw : ∀ c ∈ p, isPyWs c = false) :
    '\r' ∉ m ++ ((' ' :: p) ++ (' ' :: "HTTP/1.1".data)) := by
  intro hmem
  rcases List.mem_append.mp hmem with h1 | h1
  · exact (httpMethods_facts m hm).2.2 h1
  · rcases List.mem_append.mp h1 with h2 | h2
    · rcases List.mem_cons.mp h2 with h3 | h3
      · cases h3
      · have := hpw '\r' h3
        simp [isPyWs] at this
    · revert h2
      decide

theorem is_http_request_encode (m p : Str) (hs : List (Str × Str)) (b : Str)
    (hm : m ∈ httpMethods) (hp : p ≠ []) (hpw : ∀ c ∈ p, isPyWs c = false) :
    is_http_request (encode_request m p hs b) = true := by
  have hSLcr := start_line_no_cr m p hm hpw
  have hsplit : ∃ X, splitOnce crlf (encode_request m p hs b) =
      some (m ++ ((' ' :: p) ++ (' ' :: "HTTP/1.1".data)), X) := by
    rw [encode_request]
    cases hls : hs.map (fun kv => kv.1 ++ ": ".data ++ kv.2) with
    | nil =>
      refine ⟨crlf ++ b, ?_⟩
      have hshape : pyJoin crlf [m ++ ((' ' :: p) ++ (' ' :: "HTTP/1.1".data))] ++ crlf2 ++ b =
          (m ++ ((' ' :: p) ++ (' ' :: "HTTP/1.1".data))) ++ ('\r' :: ['\n']) ++ (crlf ++ b) := by
        show (m ++ ((' ' :: p) ++ (' ' :: "HTTP/1.1".data))) ++ crlf2 ++ b = _
        simp [crlf, crlf2, List.append_assoc]
      rw [hshape]
      exact splitOnce_boundary '\r' ['\n'] _ _ hSLcr
    | cons l1 rest1 =>
      refine ⟨pyJoin crlf (l1 :: rest1) ++ crlf2 ++ b, ?_⟩
      have hshape : pyJoin crlf ((m ++ ((' ' :: p) ++ (' ' :: "HTTP/1.1".data))) :: l1 :: rest1) ++
          crlf2 ++ b =
          (m ++ ((' ' :: p) ++ (' ' :: "HTTP/1.1".data))) ++ ('\r' :: ['\n']) ++
            (pyJoin crlf (l1 :: rest1) ++ crlf2 ++ b) := by
        show ((m ++ ((' ' :: p) ++ (' ' :: "HTTP/1.1".data))) ++ crlf ++ pyJoin crlf (l1 :: rest1)) ++
          crlf2 ++ b = _
        simp [crlf, List.append_assoc]
      rw [hshape]
      exact splitOnce_boundary '\r' ['\n'] _ _ hSLcr
  obtain ⟨X, hX⟩ := hsplit
  rw [is_http_request, hX]
  exact matchRequestStartLine_encode m p hm hp hpw

theorem headerLinesLoop_encode (hs : List (Str × Str)) :
    ∀ r : PyDict, (∀ kv ∈ hs, ':' ∉ kv.1) →
    headerLinesLoop (hs.map (fun kv => kv.1 ++ ": ".data ++ kv.2)) r =
      .ok (hs.foldl (fun acc kv => alInsert acc (pyLower kv.1) (PyVal.pyStr kv.2)) r) := by
  induction hs with
  | nil => intro r _; rfl
  | cons kv rest ih =>
    intro r h
    have hk : ':' ∉ kv.1 := h kv (by simp)
    have hsp : splitOnce ": ".data (kv.1 ++ ": ".data ++ kv.2) = some (kv.1, kv.2) :=
      splitOnce_boundary ':' [' '] kv.1 kv.2 hk
    rw [List.map_cons, headerLinesLoop, hsp]
    rw [List.foldl_cons]
    exact ih _ (fun x hx => h x (List.mem_cons_of_mem kv hx))

theorem plain_no_ws (p : Str) (hpp : ∀ c ∈ p, isPlainChar c = true) :
    ∀ c ∈ p, isPyWs c = false := by
  intro c hc
  have := (plainChar_facts c (hpp c hc)).2.2.2.2.2.2
  exact Bool.eq_false_iff.mpr (fun hcon => this (by rw [hcon]))

theorem parse_http_headers_encode (m p : Str) (hs : List (Str × Str))
    (hm : m ∈ httpMethods) (hp : p ≠ []) (hpp : ∀ c ∈ p, isPlainChar c = true)
    (hhs : ∀ kv ∈ hs, '\r' ∉ kv.1 ∧ '\r' ∉ kv.2 ∧ ':' ∉ kv.1 ∧
      pyLower kv.1 = kv.1 ∧ kv.1 ≠ "cookie".data)
    (hnd : (hs.map Prod.fst).Nodup) :
    parse_http_headers (pyJoin crlf ((m ++ ((' ' :: p) ++ (' ' :: "HTTP/1.1".data))) ::
        hs.map (fun kv => kv.1 ++ ": ".data ++ kv.2))) =
      .ok (hs.foldl (fun acc kv => alInsert acc (pyLower kv.1) (PyVal.pyStr kv.2))
        [("method".data, .pyStr m), ("http_version".data, .pyStr "HTTP/1.1".data),
         ("path".data, .pyStr p), ("parameters".data, .pyDict [])]) := by
  have hpw : ∀ c ∈ p, isPyWs c = false := plain_no_ws p hpp
  have hfree : ∀ l ∈ ((m ++ ((' ' :: p) ++ (' ' :: "HTTP/1.1".data))) ::
      hs.map (fun kv => kv.1 ++ ": ".data ++ kv.2)), '\r' ∉ l := by
    intro l hl
    rcases List.mem_cons.mp hl with h1 | h1
    · rw [h1]
      exact start_line_no_cr m p hm hpw
    · obtain ⟨kv, hkv, hkveq⟩ := List.mem_map.mp h1
      obtain ⟨hk, hv, _, _, _⟩ := hhs kv hkv
      rw [← hkveq]
      intro hmem
      rcases List.mem_append.mp hmem with h2 | h2
      · rcases List.mem_append.mp h2 with h3 | h3
        · exact hk h3
        · revert h3; decide
      · exact hv h2
  have h5 : splitAll crlf (pyJoin crlf ((m ++ ((' ' :: p) ++ (' ' :: "HTTP/1.1".data))) ::
      hs.map (fun kv => kv.1 ++ ": ".data ++ kv.2))) =
      (m ++ ((' ' :: p) ++ (' ' :: "HTTP/1.1".data))) ::
        hs.map (fun kv => kv.1 ++ ": ".data ++ kv.2) :=
    splitAll_pyJoin '\r' ['\n'] _ (by simp) hfree
  rw [parse_http_headers, h5]
  simp only [List.headD_cons, List.tail_cons]
  rw [pySplitWs_start_line m p "HTTP/1.1".data (httpMethods_facts m hm).1
    (httpMethods_facts m hm).2.1 hp hpw (by decide) (by decide)]
  dsimp only
  have hq : containsSub ['?'] p = false := by
    rw [containsSub, splitOnce_not_contains '?' [] p
      (fun hmem => (plainChar_facts '?' (hpp '?' hmem)).2.2.2.2.2.1 rfl)]
    rfl
  rw [hq]
  simp only [Bool.false_eq_true, if_false]
  rw [unquotePlus_plain p
    (fun c hc => ⟨(plainChar_facts c (hpp c hc)).1, (plainChar_facts c (hpp c hc)).2.1⟩)]
  rw [headerLinesLoop_encode hs _ (fun kv hkv => (hhs kv hkv).2.2.1)]
  dsimp only [List.map_nil]
  have hcookie : alLookup (hs.foldl (fun acc kv => alInsert acc (pyLower kv.1) (PyVal.pyStr kv.2))
      [("method".data, .pyStr m), ("http_version".data, .pyStr "HTTP/1.1".data),
       ("path".data, .pyStr p), ("parameters".data, .pyDict [])]) "cookie".data =
      Option.none := by
    rw [headers_foldl_lookup hs _ "cookie".data hnd (fun kv hkv => (hhs kv hkv).2.2.2.1)]
    have hknc : "cookie".data ∉ hs.map Prod.fst := by
      intro hmem
      obtain ⟨kv, hkv, hkveq⟩ := List.mem_map.mp hmem
      exact (hhs kv hkv).2.2.2.2 hkveq
    rw [alLookup_not_mem hs "cookie".data hknc]
    rw [alLookup_cons_ne _ _ _ _ (by decide), alLookup_cons_ne _ _ _ _ (by decide),
      alLookup_cons_ne _ _ _ _ (by decide), alLookup_cons_ne _ _ _ _ (by decide)]
    rfl
  rw [hcookie]


theorem parse_http_request_encode (m p : Str) (hs : List (Str × Str)) (b : Str)
    (hm : m ∈ httpMethods) (hp : p ≠ []) (hpp : ∀ c ∈ p, isPlainChar c = true)
    (hhs : ∀ kv ∈ hs, '\r' ∉ kv.1 ∧ '\r' ∉ kv.2 ∧ ':' ∉ kv.1 ∧
      pyLower kv.1 = kv.1 ∧ kv.1 ≠ "cookie".data ∧ kv.1 ≠ "content-type".data)
    (hnd : (hs.map Prod.fst).Nodup) :
    ∃ bv, parse_http_request (encode_request m p hs b) =
      .ok (alInsert (hs.foldl (fun acc kv => alInsert acc (pyLower kv.1) (PyVal.pyStr kv.2))
        [("method".data, .pyStr m), ("http_version".data, .pyStr "HTTP/1.1".data),
         ("path".data, .pyStr p), ("parameters".data, .pyDict [])]) "body".data bv) := by
  have hpw : ∀ c ∈ p, isPyWs c = false := plain_no_ws p hpp
  have hhttp := is_http_request_encode m p hs b hm hp hpw
  have hlineok : ∀ l ∈ ((m ++ ((' ' :: p) ++ (' ' :: "HTTP/1.1".data))) ::
      hs.map (fun kv => kv.1 ++ ": ".data ++ kv.2)), '\r' ∉ l ∧ l ≠ [] := by
    intro l hl
    rcases List.mem_cons.mp hl with h1 | h1
    · constructor
      · rw [h1]
        exact start_line_no_cr m p hm hpw
      · rw [h1]
        have := (httpMethods_facts m hm).1
        intro hcon
        rcases List.append_eq_nil.mp hcon with ⟨h2, _⟩
        exact this h2
    · obtain ⟨kv, hkv, hkveq⟩ := List.mem_map.mp h1
      obtain ⟨hk, hv, _, _, _, _⟩ := hhs kv hkv
      constructor
      · rw [← hkveq]
        intro hmem
        rcases List.mem_append.mp hmem with h2 | h2
        · rcases List.mem_append.mp h2 with h3 | h3
          · exact hk h3
          · revert h3; decide
        · exact hv h2
      · rw [← hkveq]
        intro hcon
        rcases List.append_eq_nil.mp hcon with ⟨h2, _⟩
        rcases List.append_eq_nil.mp h2 with ⟨_, h3⟩
        cases h3
  have hsep : splitOnce crlf2 (encode_request m p hs b) =
      some (pyJoin crlf ((m ++ ((' ' :: p) ++ (' ' :: "HTTP/1.1".data))) ::
        hs.map (fun kv => kv.1 ++ ": ".data ++ kv.2)), b) := by
    rw [encode_request]
    exact splitOnce_crlf2_join _ b (List.cons_ne_nil _ _) hlineok
  have hheaders := parse_http_headers_encode m p hs hm hp hpp
    (fun kv hkv => ⟨(hhs kv hkv).1, (hhs kv hkv).2.1, (hhs kv hkv).2.2.1,
      (hhs kv hkv).2.2.2.1, (hhs kv hkv).2.2.2.2.1⟩) hnd
  have hct : alLookup (hs.foldl (fun acc kv => alInsert acc (pyLower kv.1) (PyVal.pyStr kv.2))
      [("method".data, .pyStr m), ("http_version".data, .pyStr "HTTP/1.1".data),
       ("path".data, .pyStr p), ("parameters".data, .pyDict [])]) "content-type".data =
      Option.none := by
    rw [headers_foldl_lookup hs _ "content-type".data hnd
      (fun kv hkv => (hhs kv hkv).2.2.2.1)]
    have hknc : "content-type".data ∉ hs.map Prod.fst := by
      intro hmem
      obtain ⟨kv, hkv, hkveq⟩ := List.mem_map.mp hmem
      exact (hhs kv hkv).2.2.2.2.2 hkveq
    rw [alLookup_not_mem hs "content-type".data hknc]
    rw [alLookup_cons_ne _ _ _ _ (by decide), alLookup_cons_ne _ _ _ _ (by decide),
      alLookup_cons_ne _ _ _ _ (by decide), alLookup_cons_ne _ _ _ _ (by decide)]
    rfl
  have hbody : ∃ bv, parse_http_body b "text/plain".data = .ok bv := by
    by_cases hb : b.length = 0
    · exact ⟨.pyDict [], by rw [parse_http_body, if_pos hb]⟩
    · refine ⟨match jsonParse b with | some v => v | Option.none => .pyDict [], ?_⟩
      rw [parse_http_body, if_neg hb, if_neg (by decide),
        if_neg (by rw [show ("multipart/form-data".data.isPrefixOf ("text/plain".data) : Bool) =
          false from rfl]; exact Bool.false_ne_true)]
      cases jsonParse b with
      | some v => rfl
      | none => rfl
  obtain ⟨bv, hbv⟩ := hbody
  refine ⟨bv, ?_⟩
  rw [parse_http_request, hhttp]
  simp only [Bool.not_true, Bool.false_eq_true, if_false]
  rw [hsep]
  dsimp only
  rw [hheaders]
  dsimp only
  rw [hct]
  dsimp only
  rw [hbv]

/-- Claim C3: for every method, path, header list and body whose wire
encoding is a valid request byte-stream — the method is one of the five
recognized ones; the path is non-empty and free of whitespace, `%`, `+`,
`?` and the other separator characters; header names are lower-case,
colon-free, CR-free, pairwise distinct and none of the reserved slot names
(`cookie` and `content-type` included, so the body is parsed under the
default content type); header values are CR-free — parsing the encoded
bytes recovers the method, the path, the HTTP version and exactly the
original header set. -/
theorem encode_parse_round_trip (m p : Str) (hs : List (Str × Str)) (b : Str)
    (hm : m ∈ httpMethods) (hp : p ≠ []) (hpp : ∀ c ∈ p, isPlainChar c = true)
    (hhs : ∀ kv ∈ hs, '\r' ∉ kv.1 ∧ '\r' ∉ kv.2 ∧ ':' ∉ kv.1 ∧ pyLower kv.1 = kv.1 ∧
      kv.1 ∉ ("cookie".data :: "content-type".data :: reservedRequestKeys))
    (hnd : (hs.map Prod.fst).Nodup) :
    ∃ r, parse_http_request (encode_request m p hs b) = .ok r ∧
      alLookup r "method".data = some (.pyStr m) ∧
      alLookup r "path".data = some (.pyStr p) ∧
      alLookup r "http_version".data = some (.pyStr "HTTP/1.1".data) ∧
      (∀ q : Str, q ∉ reservedRequestKeys →
        alLookup r q = (alLookup hs q).map (fun v => PyVal.pyStr v)) := by
  have hlow : ∀ kv ∈ hs, pyLower kv.1 = kv.1 := fun kv hkv => (hhs kv hkv).2.2.2.1
  have hres : ∀ kv ∈ hs, kv.1 ∉ ("cookie".data :: "content-type".data :: reservedRequestKeys) :=
    fun kv hkv => (hhs kv hkv).2.2.2.2
  obtain ⟨bv, hr⟩ := parse_http_request_encode m p hs b hm hp hpp
    (fun kv hkv => ⟨(hhs kv hkv).1, (hhs kv hkv).2.1, (hhs kv hkv).2.2.1,
      (hhs kv hkv).2.2.2.1,
      fun hcon => hres kv hkv (by rw [hcon]; simp),
      fun hcon => hres kv hkv (by rw [hcon]; simp)⟩) hnd
  refine ⟨_, hr, ?_, ?_, ?_, ?_⟩
  · rw [alLookup_alInsert_ne _ _ _ _ (by decide)]
    rw [headers_foldl_lookup hs _ _ hnd hlow]
    have hnm : "method".data ∉ hs.map Prod.fst := by
      intro hmem
      obtain ⟨kv, hkv, hkveq⟩ := List.mem_map.mp hmem
      exact hres kv hkv (by rw [hkveq]; simp [reservedRequestKeys])
    rw [alLookup_not_mem hs _ hnm]
    rw [alLookup, if_pos rfl]
  · rw [alLookup_alInsert_ne _ _ _ _ (by decide)]
    rw [headers_foldl_lookup hs _ _ hnd hlow]
    have hnm : "path".data ∉ hs.map Prod.fst := by
      intro hmem
      obtain ⟨kv, hkv, hkveq⟩ := List.mem_map.mp hmem
      exact hres kv hkv (by rw [hkveq]; simp [reservedRequestKeys])
    rw [alLookup_not_mem hs _ hnm]
    rw [alLookup_cons_ne _ _ _ _ (by decide), alLookup_cons_ne _ _ _ _ (by decide)]
    rw [alLookup, if_pos rfl]
  · rw [alLookup_alInsert_ne _ _ _ _ (by decide)]
    rw [headers_foldl_lookup hs _ _ hnd hlow]
    have hnm : "http_version".data ∉ hs.map Prod.fst := by
      intro hmem
      obtain ⟨kv, hkv, hkveq⟩ := List.mem_map.mp hmem
      exact hres kv hkv (by rw [hkveq]; simp [reservedRequestKeys])
    rw [alLookup_not_mem hs _ hnm]
    rw [alLookup_cons_ne _ _ _ _ (by decide)]
    rw [alLookup, if_pos rfl]
  · intro q hq
    have hqbody : "body".data ≠ q := by
      intro hcon
      exact hq (by rw [← hcon]; simp [reservedRequestKeys])
    rw [alLookup_alInsert_ne _ _ _ _ hqbody]
    rw [headers_foldl_lookup hs _ _ hnd hlow]
    cases hhsq : alLookup hs q with
    | some v => rfl
    | none =>
      have h1 : "method".data ≠ q := fun hcon => hq (by rw [← hcon]; simp [reservedRequestKeys])
      have h2 : "http_version".data ≠ q :=
        fun hcon => hq (by rw [← hcon]; simp [reservedRequestKeys])
      have h3 : "path".data ≠ q := fun hcon => hq (by rw [← hcon]; simp [reservedRequestKeys])
      have h4 : "parameters".data ≠ q :=
        fun hcon => hq (by rw [← hcon]; simp [reservedRequestKeys])
      rw [alLookup_cons_ne _ _ _ _ h1, alLookup_cons_ne _ _ _ _ h2,
        alLookup_cons_ne _ _ _ _ h3, alLookup_cons_ne _ _ _ _ h4]
      rfl

/-- Claim C3, witness: the round-trip theorem applied to a concrete GET
request with one custom header and a body. -/
theorem encode_parse_round_trip_witness :
    ∃ r, parse_http_request (encode_request "GET".data "/a/b".data
        [("host".data, "example.com".data)] "hello".data) = .ok r ∧
      alLookup r "method".data = some (.pyStr "GET".data) ∧
      alLookup r "path".data = some (.pyStr "/a/b".data) ∧
      alLookup r "http_version".data = some (.pyStr "HTTP/1.1".data) ∧
      (∀ q : Str, q ∉ reservedRequestKeys →
        alLookup r q = (alLookup [("host".data, "example.com".data)] q).map
          (fun v => PyVal.pyStr v)) :=
  encode_parse_round_trip "GET".data "/a/b".data [("host".data, "example.com".data)]
    "hello".data (by decide) (by decide) (by decide) (by decide) (by decide)

theorem alLookup_mem_nodup (hs : List (Str × Str)) (k v : Str)
    (hnd : (hs.map Prod.fst).Nodup) (hkv : (k, v) ∈ hs) :
    alLookup hs k = some v := by
  induction hs with
  | nil => cases hkv
  | cons kv0 rest ih =>
    rw [List.map_cons] at hnd
    rcases List.mem_cons.mp hkv with h1 | h1
    · rw [← h1]
      rw [alLookup, if_pos rfl]
    · have hne : kv0.1 ≠ k := by
        intro hcon
        have hkin : k ∈ rest.map Prod.fst :=
          List.mem_map.mpr ⟨(k, v), h1, rfl⟩
        exact (List.nodup_cons.mp hnd).1 (hcon ▸ hkin)
      rw [show (kv0 :: rest) = (kv0.1, kv0.2) :: rest from rfl,
        alLookup_cons_ne _ _ _ _ hne]
      exact ih (List.nodup_cons.mp hnd).2 h1

/-- Claim C9: a request whose header section carries a header named
`path`, `method`, `http_version` or `parameters` (lower-cased) stores that
header's value in the same mapping slot as the start-line-derived field,
and since the header lines are parsed after the start line, the header's
value is what the resulting Request mapping holds. -/
theorem header_overwrites_start_line_slot (m p : Str) (hs : List (Str × Str)) (b : Str)
    (k v : Str)
    (hm : m ∈ httpMethods) (hp : p ≠ []) (hpp : ∀ c ∈ p, isPlainChar c = true)
    (hhs : ∀ kv ∈ hs, '\r' ∉ kv.1 ∧ '\r' ∉ kv.2 ∧ ':' ∉ kv.1 ∧ pyLower kv.1 = kv.1 ∧
      kv.1 ≠ "cookie".data ∧ kv.1 ≠ "content-type".data)
    (hnd : (hs.map Prod.fst).Nodup)
    (hkv : (k, v) ∈ hs)
    (hk : k ∈ [("method".data : Str), "http_version".data, "path".data, "parameters".data]) :
    ∃ r, parse_http_request (encode_request m p hs b) = .ok r ∧
      alLookup r k = some (.pyStr v) := by
  have hlow : ∀ kv ∈ hs, pyLower kv.1 = kv.1 := fun kv hkv2 => (hhs kv hkv2).2.2.2.1
  obtain ⟨bv, hr⟩ := parse_http_request_encode m p hs b hm hp hpp hhs hnd
  refine ⟨_, hr, ?_⟩
  have hlk : alLookup hs k = some v := alLookup_mem_nodup hs k v hnd hkv
  have hkbody : "body".data ≠ k := by
    rcases List.mem_cons.mp hk with rfl | h1
    · decide
    rcases List.mem_cons.mp h1 with rfl | h2
    · decide
    rcases List.mem_cons.mp h2 with rfl | h3
    · decide
    rcases List.mem_cons.mp h3 with rfl | h4
    · decide
    cases h4
  rw [alLookup_alInsert_ne _ _ _ _ hkbody]
  rw [headers_foldl_lookup hs _ _ hnd hlow]
  rw [hlk]

/-- Claim C9, witness: the overwrite theorem applied to a request that
carries a header line `path: /evil`; the parsed mapping's `path` slot
holds `/evil`, not the start-line path `/x`. -/
theorem header_overwrites_start_line_slot_witness :
    (∃ r, parse_http_request (encode_request "GET".data "/x".data
        [("path".data, "/evil".data)] ([] : Str)) = .ok r ∧
      alLookup r "path".data = some (.pyStr "/evil".data)) ∧
    ¬("/evil".data = "/x".data) :=
  ⟨header_overwrites_start_line_slot "GET".data "/x".data [("path".data, "/evil".data)]
      ([] : Str) "path".data "/evil".data (by decide) (by decide) (by decide)
      (by decide) (by decide) (by decide) (by decide),
   by decide⟩
